import Mathlib

/-!
Verification development for the crudx statement-construction engine.

The definitions below are a shallow embedding of the Rust sources:
  * `src/filter.rs`            — the `Filter` accumulator (`if_and`, `and`, `if_or`, `or`);
  * `src/model/mod.rs`         — `Model::new` (camel-case → snake_case table names);
  * `src/model/macros.rs`      — the sqlx statement builders (`sqlx_insert_one`,
    `sqlx_insert`, `sqlx_update`, `sqlx_delete`, `sqlx_count`, `sqlx_query`);
  * `src/model/mssql.rs`       — the hand-written tabular-dialect builders.

The four dialects differ only in the text a bound placeholder renders to
(`$N` for postgres, `?` for mysql/sqlite via sqlx's `push_bind`, `@PN` for
the tabular dialect, `N` being the one-based global bind position), so the
per-dialect copies of each builder are embedded once, parameterised by
`Dialect`.  Built SQL is represented as `List Char` (the character sequence
pushed into the Rust `String`/`QueryBuilder`); bound parameters as a list of
`Param` values in push order.  The caller-supplied conversion function
`to_arg` (`Fn(&dyn Any, ..) -> Result<String>`) is a parameter
`toArg : Arg → Except String String`; on success the scanned value itself is
pushed onto the bind list, exactly as `push_bind`/`params.push` do.  The
debug-argument string accumulated by the sources purely for transport error
messages is not modelled.
-/

namespace Crudx

/-- The four backends.  postgres/mysql/sqlite run through the sqlx macros,
mssql through the hand-written builders in `mssql.rs`. -/
inductive Dialect
  | postgres
  | mysql
  | sqlite
  | mssql
deriving DecidableEq

/-- Text emitted for the `n`-th (1-based, global across the statement) bound
parameter: sqlx's `push_bind` renders `$n` for postgres and `?` for
mysql/sqlite; `mssql.rs` pushes `"@P"` followed by `params.len()`. -/
def Dialect.placeholder : Dialect → Nat → String
  | .postgres, n => "$" ++ Nat.repr n
  | .mysql, _ => "?"
  | .sqlite, _ => "?"
  | .mssql, n => "@P" ++ Nat.repr n

/-- A value pushed onto the bind-parameter vector: either a type-erased
argument (`Box<dyn Any>` / `&dyn ToSql`) or one of the `i64` limit/offset
values pushed directly by the pagination code. -/
inductive Param (Arg : Type)
  | arg : Arg → Param Arg
  | int : Int → Param Arg
deriving DecidableEq

/-- `src/filter.rs`: `Filter { expr: String, args: Vec<Box<dyn Any>> }`.
`Arg` stands for the type-erased argument values. -/
structure Filter (Arg : Type) where
  expr : String
  args : List Arg
deriving DecidableEq

/-- `Filter::if_and` (`src/filter.rs` lines 16-33). -/
def Filter.if_and {Arg : Type} (f : Filter Arg) (condition : Bool)
    (item : String × List Arg) : Filter Arg :=
  if condition then
    { expr :=
        if item.1.length > 0 then
          if f.expr.length > 0 then f.expr ++ " and " ++ item.1 else f.expr ++ item.1
        else f.expr,
      args := if item.2.length > 0 then f.args ++ item.2 else f.args }
  else f

/-- `Filter::and` (`src/filter.rs` lines 40-42). -/
def Filter.and {Arg : Type} (f : Filter Arg) (item : String × List Arg) : Filter Arg :=
  f.if_and true item

/-- `Filter::if_or` (`src/filter.rs` lines 53-70). -/
def Filter.if_or {Arg : Type} (f : Filter Arg) (condition : Bool)
    (item : String × List Arg) : Filter Arg :=
  if condition then
    { expr :=
        if item.1.length > 0 then
          if f.expr.length > 0 then f.expr ++ " or " ++ item.1 else f.expr ++ item.1
        else f.expr,
      args := if item.2.length > 0 then f.args ++ item.2 else f.args }
  else f

/-- `Filter::or` (`src/filter.rs` lines 77-79). -/
def Filter.or {Arg : Type} (f : Filter Arg) (item : String × List Arg) : Filter Arg :=
  f.if_or true item

/-- `Filter::default()`: empty expression, no arguments. -/
def Filter.default (Arg : Type) : Filter Arg := { expr := "", args := [] }

/-- `src/executor.rs`: the optional join/group/having fragment triple. -/
structure Other where
  join_on : String
  group_by : String
  having : String
deriving DecidableEq

/-- The error outcomes of a statement build, matching the `anyhow!` messages:
`placeholderOverflow` is `" ? exceeds the number of args"`,
`argumentCountMismatch` is `"the quantity of ? is not equal to the number of
parameters"`, and `conversion` wraps a failure of the caller-supplied
`to_arg`. -/
inductive BuildError
  | placeholderOverflow
  | argumentCountMismatch
  | conversion (msg : String)
deriving DecidableEq

/-- Mutable state threaded through one statement build: the SQL text built so
far, the bind-parameter vector (`params` / the `QueryBuilder`'s binds), the
cursor `idx` into the filter's argument list and the quote-parity flag
`quo`. -/
structure ScanState (Arg : Type) where
  sql : List Char
  params : List (Param Arg)
  idx : Nat
  quo : Bool
deriving DecidableEq

/-- The placeholder-rewriting scan shared by every fragment-consuming builder
(e.g. `sqlx_update` lines 299-314, `MssqlModel::delete` lines 414-431): walk
the fragment character by character, toggle `quo` on every `'`, copy ordinary
characters (quoted `?` included) verbatim, and replace every unquoted `?` by
the dialect placeholder for the next global bind position while consuming
`args[idx]` — failing with `placeholderOverflow` when `idx` has reached the
end of the argument list. -/
def scanFragment {Arg : Type} (d : Dialect) (toArg : Arg → Except String String)
    (args : List Arg) : List Char → ScanState Arg → Except BuildError (ScanState Arg)
  | [], st => .ok st
  | ch :: rest, st =>
    let quo := if ch = '\'' then ! st.quo else st.quo
    if ch = '?' ∧ quo = false then
      if h : st.idx < args.length then
        match toArg args[st.idx] with
        | .error msg => .error (.conversion msg)
        | .ok _ =>
          scanFragment d toArg args rest
            { sql := st.sql ++ (d.placeholder (st.params.length + 1)).data,
              params := st.params ++ [.arg args[st.idx]],
              idx := st.idx + 1,
              quo := quo }
      else .error .placeholderOverflow
    else
      scanFragment d toArg args rest { st with sql := st.sql ++ [ch], quo := quo }

/-- Number of `?` markers outside single-quoted regions in a fragment,
starting from quote parity `quo`. -/
def countQ : List Char → Bool → Nat
  | [], _ => 0
  | ch :: rest, quo =>
    let quo2 := if ch = '\'' then ! quo else quo
    if ch = '?' ∧ quo2 = false then countQ rest quo2 + 1 else countQ rest quo2

/-- Quote parity after scanning a fragment that started at parity `quo`. -/
def finalQuo : List Char → Bool → Bool
  | [], quo => quo
  | ch :: rest, quo => finalQuo rest (if ch = '\'' then ! quo else quo)

/-- The SQL text a successful fragment scan appends, with `n` the number of
parameters already bound when the fragment starts: ordinary characters and
quoted `?` verbatim, each unquoted `?` as the placeholder for the next global
position. -/
def renderFrag (d : Dialect) : List Char → Bool → Nat → List Char
  | [], _, _ => []
  | ch :: rest, quo, n =>
    let quo2 := if ch = '\'' then ! quo else quo
    if ch = '?' ∧ quo2 = false then
      (d.placeholder (n + 1)).data ++ renderFrag d rest quo2 (n + 1)
    else ch :: renderFrag d rest quo2 n

/-- `Model::new` table-name loop (`src/model/mod.rs` lines 54-64), over the
accumulated character list. -/
def tableNameLoop : List Char → List Char → List Char
  | [], table => table
  | ch :: rest, table =>
    if ch.isUpper then
      tableNameLoop rest
        ((if table.length > 0 then table ++ ['_'] else table) ++ [ch.toLower])
    else tableNameLoop rest (table ++ [ch])

/-- `Model::new` camel-hump-to-underline table-name derivation. -/
def tableName (name : String) : String := ⟨tableNameLoop name.data []⟩

/-- The insert-statement fields section (`sqlx_insert_one` lines 80-100,
`MssqlModel::insert_one` lines 153-173): for each field name, the override
`co` decides the emitted column — skipped when `co = "-"`, emitted verbatim
when non-empty, the field name itself when empty — with a comma before every
column except the first (`sep` flag).  A field name absent from the map is
skipped.  The mapping `fields` models `model.fields.get`. -/
def columnsSection (fields : String → Option String) :
    List String → List Char → Bool → List Char
  | [], sql, _ => sql
  | fd :: rest, sql, sep =>
    match fields fd with
    | some co =>
      if co.length > 0 then
        if co ≠ "-" then
          columnsSection fields rest ((if sep then sql ++ [','] else sql) ++ co.data) true
        else columnsSection fields rest sql sep
      else columnsSection fields rest ((if sep then sql ++ [','] else sql) ++ fd.data) true
    | none => columnsSection fields rest sql sep

/-- The select column list (`sqlx_query` lines 517-538, `MssqlModel` query
lines 758-779): like `columnsSection` but an overridden column is emitted as
`co as fd`. -/
def selectSection (fields : String → Option String) :
    List String → List Char → Bool → List Char
  | [], sql, _ => sql
  | fd :: rest, sql, sep =>
    match fields fd with
    | some co =>
      if co.length > 0 then
        if co ≠ "-" then
          selectSection fields rest
            ((if sep then sql ++ [','] else sql) ++ co.data ++ (" as ").data ++ fd.data) true
        else selectSection fields rest sql sep
      else selectSection fields rest ((if sep then sql ++ [','] else sql) ++ fd.data) true
    | none => selectSection fields rest sql sep

/-- The select column list of the tabular-dialect paginated query
(`mssql.rs` lines 944-958): every emitted column is followed by a trailing
comma (the `row_number()` column comes after). -/
def limitSelectSection (fields : String → Option String) :
    List String → List Char → List Char
  | [], sql => sql
  | fd :: rest, sql =>
    match fields fd with
    | some co =>
      if co.length > 0 then
        if co ≠ "-" then
          limitSelectSection fields rest (sql ++ co.data ++ (" as ").data ++ fd.data ++ [','])
        else limitSelectSection fields rest sql
      else limitSelectSection fields rest (sql ++ fd.data ++ [','])
    | none => limitSelectSection fields rest sql

/-- The insert values section (`sqlx_insert_one` lines 106-124,
`MssqlModel::insert_one` lines 180-200), over `fnames.iter().enumerate()`:
a field whose override is the sentinel `"-"` is skipped (`continue`); every
other slot is converted by `to_arg`, pushed onto the bind vector and rendered
as the next global placeholder, comma-separated. -/
def valuesSection {Arg : Type} (d : Dialect) (toArg : Arg → Except String String)
    (entity : Nat → Arg) (fields : String → Option String) :
    List (Nat × String) → List Char → List (Param Arg) → Bool →
    Except BuildError (List Char × List (Param Arg))
  | [], sql, params, _ => .ok (sql, params)
  | (ix, fd) :: rest, sql, params, sep =>
    if fields fd = some "-" then valuesSection d toArg entity fields rest sql params sep
    else
      match toArg (entity ix) with
      | .error msg => .error (.conversion msg)
      | .ok _ =>
        valuesSection d toArg entity fields rest
          ((if sep then sql ++ [','] else sql) ++ (d.placeholder (params.length + 1)).data)
          (params ++ [.arg (entity ix)]) true

/-- The update SET section (`sqlx_update` lines 266-291, `MssqlModel::update`
lines 328-357): emits `col=<placeholder>` for every field not overridden to
`"-"` (the column being the override when non-empty, else the field name),
binding the entity's slot value. -/
def setSection {Arg : Type} (d : Dialect) (toArg : Arg → Except String String)
    (entity : Nat → Arg) (fields : String → Option String) :
    List (Nat × String) → List Char → List (Param Arg) → Bool →
    Except BuildError (List Char × List (Param Arg))
  | [], sql, params, _ => .ok (sql, params)
  | (ix, fd) :: rest, sql, params, sep =>
    match fields fd with
    | some co =>
      if co.length > 0 then
        if co ≠ "-" then
          match toArg (entity ix) with
          | .error msg => .error (.conversion msg)
          | .ok _ =>
            setSection d toArg entity fields rest
              ((if sep then sql ++ [','] else sql) ++ co.data ++ ['='] ++
                (d.placeholder (params.length + 1)).data)
              (params ++ [.arg (entity ix)]) true
        else setSection d toArg entity fields rest sql params sep
      else
        match toArg (entity ix) with
        | .error msg => .error (.conversion msg)
        | .ok _ =>
          setSection d toArg entity fields rest
            ((if sep then sql ++ [','] else sql) ++ fd.data ++ ['='] ++
              (d.placeholder (params.length + 1)).data)
            (params ++ [.arg (entity ix)]) true
    | none => setSection d toArg entity fields rest sql params sep

/-- The join-on section of count/query builds: when `other` carries a
non-empty `join_on`, push a space and scan the fragment. -/
def joinSection {Arg : Type} (d : Dialect) (toArg : Arg → Except String String)
    (args : List Arg) (other : Option Other) (st : ScanState Arg) :
    Except BuildError (ScanState Arg) :=
  match other with
  | some ot =>
    if ot.join_on.length > 0 then
      scanFragment d toArg args ot.join_on.data { st with sql := st.sql ++ [' '] }
    else .ok st
  | none => .ok st

/-- The where section: when the filter expression is non-empty, push
`" where "` and scan it; an empty expression emits nothing at all. -/
def whereSection {Arg : Type} (d : Dialect) (toArg : Arg → Except String String)
    (filter : Filter Arg) (st : ScanState Arg) : Except BuildError (ScanState Arg) :=
  if filter.expr.length > 0 then
    scanFragment d toArg filter.args filter.expr.data
      { st with sql := st.sql ++ (" where ").data }
  else .ok st

/-- The group-by/having section of count/query builds: only entered when
`group_by` is non-empty; the raw `group_by` text is pushed unscanned, then a
non-empty `having` fragment is scanned.  `closeSub` is true for count builds,
which close the `(select 1 ...)` subquery with `") sub"`. -/
def groupHavingSection {Arg : Type} (d : Dialect) (toArg : Arg → Except String String)
    (args : List Arg) (other : Option Other) (closeSub : Bool) (st : ScanState Arg) :
    Except BuildError (ScanState Arg) :=
  match other with
  | some ot =>
    if ot.group_by.length > 0 then
      match
        (if ot.having.length > 0 then
          scanFragment d toArg args ot.having.data
            { st with sql := st.sql ++ [' '] ++ ot.group_by.data ++ [' '] }
        else .ok { st with sql := st.sql ++ [' '] ++ ot.group_by.data }) with
      | .error e => .error e
      | .ok sth => .ok (if closeSub then { sth with sql := sth.sql ++ (") sub").data } else sth)
    else .ok st
  | none => .ok st

/-- `sqlx_update` (`macros.rs` lines 255-339) / `MssqlModel::update`
(`mssql.rs` lines 317-399): SET section over the entity's fields, optional
WHERE scan of the filter expression, then the final cursor-versus-argument
check. -/
def updateBuild {Arg : Type} (d : Dialect) (toArg : Arg → Except String String)
    (table : String) (fnames : List String) (fields : String → Option String)
    (entity : Nat → Arg) (filter : Filter Arg) :
    Except BuildError (List Char × List (Param Arg)) :=
  match setSection d toArg entity fields fnames.enum
      (("update " ++ table ++ " set ").data) [] false with
  | .error e => .error e
  | .ok (sql, params) =>
    match whereSection d toArg filter { sql := sql, params := params, idx := 0, quo := false } with
    | .error e => .error e
    | .ok st =>
      if st.idx ≠ filter.args.length then .error .argumentCountMismatch
      else .ok (st.sql, st.params)

/-- `sqlx_delete` (`macros.rs` lines 342-395) / `MssqlModel::delete`
(`mssql.rs` lines 401-448). -/
def deleteBuild {Arg : Type} (d : Dialect) (toArg : Arg → Except String String)
    (table : String) (filter : Filter Arg) :
    Except BuildError (List Char × List (Param Arg)) :=
  match whereSection d toArg filter
      { sql := ("delete from " ++ table).data, params := [], idx := 0, quo := false } with
  | .error e => .error e
  | .ok st =>
    if st.idx ≠ filter.args.length then .error .argumentCountMismatch
    else .ok (st.sql, st.params)

/-- `sqlx_insert_one` (`macros.rs` lines 72-173) / `MssqlModel::insert_one`
(`mssql.rs` lines 146-243): fields section in parentheses, then either
`" values ("..")"` or, when a filter is supplied, `" select "` plus a WHERE
scan with its own cursor check. -/
def insertOneBuild {Arg : Type} (d : Dialect) (toArg : Arg → Except String String)
    (table : String) (fnames : List String) (fields : String → Option String)
    (entity : Nat → Arg) (filter : Option (Filter Arg)) :
    Except BuildError (List Char × List (Param Arg)) :=
  let cols := columnsSection fields fnames (("insert into " ++ table).data ++ ['(']) false
  let sql0 := cols ++ [')'] ++ (if filter.isSome then (" select ").data else (" values (").data)
  match valuesSection d toArg entity fields fnames.enum sql0 [] false with
  | .error e => .error e
  | .ok (sql, params) =>
    match filter with
    | some flt =>
      match scanFragment d toArg flt.args flt.expr.data
          { sql := sql ++ (" where ").data, params := params, idx := 0, quo := false } with
      | .error e => .error e
      | .ok st =>
        if st.idx ≠ flt.args.length then .error .argumentCountMismatch
        else .ok (st.sql, st.params)
    | none => .ok (sql ++ [')'], params)

/-- The join-on → where → group-by/having scan chain shared verbatim by the
count, query and paginated-query builders (the three sections share one
cursor and one quote-parity flag), followed by a builder-specific
continuation `k`. -/
def pipeline {Arg β : Type} (d : Dialect) (toArg : Arg → Except String String)
    (filter : Filter Arg) (other : Option Other) (cs : Bool)
    (k : ScanState Arg → Except BuildError β) (sql0 : List Char) : Except BuildError β :=
  match joinSection d toArg filter.args other ⟨sql0, [], 0, false⟩ with
  | .error e => .error e
  | .ok st1 =>
    match whereSection d toArg filter st1 with
    | .error e => .error e
    | .ok st2 =>
      match groupHavingSection d toArg filter.args other cs st2 with
      | .error e => .error e
      | .ok st3 => k st3

/-- `sqlx_count` (`macros.rs` lines 398-507) / `MssqlModel::count`
(`mssql.rs` lines 450-575): the grouped variant wraps a `select 1` subquery
(spelled `select 1 as n` by the tabular dialect), then join-on, where and
group-by/having sections share one cursor and one quote-parity flag, with
the cursor check after the full scan. -/
def countBuild {Arg : Type} (d : Dialect) (toArg : Arg → Except String String)
    (table : String) (filter : Filter Arg) (other : Option Other) :
    Except BuildError (List Char × List (Param Arg)) :=
  let grouped : Bool := match other with
    | some ot => decide (ot.group_by.length > 0)
    | none => false
  let head :=
    if grouped then
      match d with
      | .mssql => "select count(*) from (select 1 as n"
      | _ => "select count(*) from (select 1"
    else "select count(*)"
  pipeline d toArg filter other true
    (fun st3 =>
      if st3.idx ≠ filter.args.length then .error .argumentCountMismatch
      else .ok (st3.sql, st3.params))
    ((head ++ " from " ++ table).data)

/-- `sqlx_query` without the limit section (`macros.rs` lines 510-634) /
`MssqlModel` `OrderExecutor::query` (`mssql.rs` lines 752-920): select
column list, join-on/where/group-having scans sharing one cursor, the cursor
check, then the raw (unscanned) order-by text. -/
def queryBuild {Arg : Type} (d : Dialect) (toArg : Arg → Except String String)
    (table : String) (fnames : List String) (fields : String → Option String)
    (order : String) (filter : Filter Arg) (other : Option Other) :
    Except BuildError (List Char × List (Param Arg)) :=
  let sel := selectSection fields fnames ("select ").data false
  pipeline d toArg filter other false
    (fun st3 =>
      if st3.idx ≠ filter.args.length then .error .argumentCountMismatch
      else
        .ok ((if order.length > 0 then st3.sql ++ (" order by " ++ order).data else st3.sql),
          st3.params))
    (sel ++ (" from " ++ table).data)

/-- The tabular-dialect paginated query, `LimitExecutor::query` for
`MssqlModel` (`mssql.rs` lines 938-1118): wraps the select in a
`row_number() over (order by ...) as _num` subquery (ordering by the
caller's order string, or the constant `(select 1)` when none was given),
scans join/where/group-having as usual, checks the cursor, then appends
`") sub where _num between (1+@Pa) and (@Pa+@Pb)"` pushing `offset` then
`limit` onto the bind vector. -/
def mssqlLimitQueryBuild {Arg : Type} (toArg : Arg → Except String String)
    (table : String) (fnames : List String) (fields : String → Option String)
    (order : String) (lim off : Int) (filter : Filter Arg) (other : Option Other) :
    Except BuildError (List Char × List (Param Arg)) :=
  let sel := limitSelectSection fields fnames ("select * from (select ").data
  let sel := sel ++ ("row_number() over (order by ").data ++
    (if order.length > 0 then order.data else ("(select 1)").data) ++ (") as _num").data
  pipeline .mssql toArg filter other false
    (fun st3 =>
      if st3.idx ≠ filter.args.length then .error .argumentCountMismatch
      else
        let params1 := st3.params ++ [Param.int off]
        let sql1 := st3.sql ++ (") sub where _num between (1+").data ++
          ("@P" ++ Nat.repr params1.length).data ++ (") and (").data ++
          ("@P" ++ Nat.repr params1.length).data ++ ['+']
        let params2 := params1 ++ [Param.int lim]
        let sql2 := sql1 ++ ("@P" ++ Nat.repr params2.length).data ++ [')']
        .ok (sql2, params2))
    (sel ++ (" from " ++ table).data)

/-- Row materialization (`sqlx_query` lines 661-672, `MssqlModel` query
lines 904-917): starting from a clone of the template entity (modelled as
its slot-access function), every field not overridden to `"-"` has its slot
replaced by the value `from_row` decodes from the result row; `"-"` slots
are skipped and keep the clone's value. -/
def materializeRow {Arg Row : Type} (fromRow : String → Row → Arg → Except String Arg)
    (fields : String → Option String) (row : Row) :
    List (Nat × String) → (Nat → Arg) → Except String (Nat → Arg)
  | [], ent => .ok ent
  | (ix, fd) :: rest, ent =>
    if fields fd = some "-" then materializeRow fromRow fields row rest ent
    else
      match fromRow fd row (ent ix) with
      | .error msg => .error msg
      | .ok v => materializeRow fromRow fields row rest (fun j => if j = ix then v else ent j)

/-! ### Helper lemmas -/

theorem strLengthPos {s : String} : s.length > 0 ↔ s ≠ "" := by
  cases s with
  | mk data =>
    cases data with
    | nil => simp [String.length]
    | cons c cs =>
      simp only [String.length]
      constructor
      · intro _ h
        exact absurd (congrArg String.data h) (by simp)
      · intro _
        simp

theorem charToLowerOfNotUpper {c : Char} (h : c.isUpper = false) : c.toLower = c := by
  unfold Char.toLower
  simp only []
  split
  · next hle =>
    exfalso
    unfold Char.isUpper at h
    simp only [Bool.and_eq_false_iff, decide_eq_false_iff_not, Char.le_def] at h
    rcases h with h | h
    · exact h (by exact_mod_cast hle.1)
    · exact h (by exact_mod_cast hle.2)
  · rfl

/-- Total success of the caller-supplied conversion function: every
type-erased value converts (the built-in converters fail only on types
outside their fixed set, which is orthogonal to placeholder arity). -/
def ConvTotal {Arg : Type} (toArg : Arg → Except String String) : Prop :=
  ∀ a, ∃ s, toArg a = Except.ok s

theorem countQ_cons (ch : Char) (rest : List Char) (quo : Bool) :
    countQ (ch :: rest) quo =
      if ch = '?' ∧ (if ch = '\'' then !quo else quo) = false
      then countQ rest (if ch = '\'' then !quo else quo) + 1
      else countQ rest (if ch = '\'' then !quo else quo) := rfl

theorem finalQuo_cons (ch : Char) (rest : List Char) (quo : Bool) :
    finalQuo (ch :: rest) quo = finalQuo rest (if ch = '\'' then !quo else quo) := rfl

theorem renderFrag_cons (d : Dialect) (ch : Char) (rest : List Char) (quo : Bool) (n : Nat) :
    renderFrag d (ch :: rest) quo n =
      if ch = '?' ∧ (if ch = '\'' then !quo else quo) = false
      then (d.placeholder (n + 1)).data ++ renderFrag d rest (if ch = '\'' then !quo else quo) (n + 1)
      else ch :: renderFrag d rest (if ch = '\'' then !quo else quo) n := rfl

theorem scanFragment_cons {Arg : Type} (d : Dialect) (toArg : Arg → Except String String)
    (args : List Arg) (ch : Char) (rest : List Char) (st : ScanState Arg) :
    scanFragment d toArg args (ch :: rest) st =
      if ch = '?' ∧ (if ch = '\'' then !st.quo else st.quo) = false then
        (if h : st.idx < args.length then
          match toArg args[st.idx] with
          | .error msg => .error (.conversion msg)
          | .ok _ =>
            scanFragment d toArg args rest
              { sql := st.sql ++ (d.placeholder (st.params.length + 1)).data,
                params := st.params ++ [.arg args[st.idx]],
                idx := st.idx + 1,
                quo := if ch = '\'' then !st.quo else st.quo }
        else .error .placeholderOverflow)
      else
        scanFragment d toArg args rest
          { st with sql := st.sql ++ [ch], quo := if ch = '\'' then !st.quo else st.quo } := rfl

theorem countQ_append (a b : List Char) : ∀ quo : Bool,
    countQ (a ++ b) quo = countQ a quo + countQ b (finalQuo a quo) := by
  induction a with
  | nil => intro quo; simp [countQ, finalQuo]
  | cons c rest ih =>
    intro quo
    rw [List.cons_append, countQ_cons, countQ_cons, finalQuo_cons, ih]
    by_cases hc : c = '?' ∧ (if c = '\'' then !quo else quo) = false
    · rw [if_pos hc, if_pos hc]; omega
    · rw [if_neg hc, if_neg hc]

theorem finalQuo_append (a b : List Char) : ∀ quo : Bool,
    finalQuo (a ++ b) quo = finalQuo b (finalQuo a quo) := by
  induction a with
  | nil => intro quo; simp [finalQuo]
  | cons c rest ih =>
    intro quo
    rw [List.cons_append, finalQuo_cons, finalQuo_cons, ih]

/-- Full characterization of a successful fragment scan: when the fragment
holds no more unquoted `?` than unconsumed arguments, the scan succeeds,
appends the `renderFrag` text, pushes the consumed arguments in order and
advances the cursor by the unquoted-`?` count. -/
theorem scanFragment_ok {Arg : Type} (d : Dialect) (toArg : Arg → Except String String)
    (args : List Arg) (hconv : ConvTotal toArg) (frag : List Char) :
    ∀ st : ScanState Arg, st.idx + countQ frag st.quo ≤ args.length →
    scanFragment d toArg args frag st = .ok {
      sql := st.sql ++ renderFrag d frag st.quo st.params.length,
      params := st.params ++ ((args.drop st.idx).take (countQ frag st.quo)).map Param.arg,
      idx := st.idx + countQ frag st.quo,
      quo := finalQuo frag st.quo } := by
  induction frag with
  | nil =>
    intro st hlen
    simp [scanFragment, countQ, renderFrag, finalQuo]
  | cons ch rest ih =>
    intro st hlen
    rw [countQ_cons] at hlen
    rw [scanFragment_cons, countQ_cons, renderFrag_cons, finalQuo_cons]
    by_cases hc : ch = '?' ∧ (if ch = '\'' then !st.quo else st.quo) = false
    · simp only [if_pos hc] at hlen ⊢
      have hidx : st.idx < args.length := by omega
      obtain ⟨s, hs⟩ := hconv args[st.idx]
      rw [dif_pos hidx, hs]
      rw [ih _ (by simp only []; omega)]
      rw [List.drop_eq_getElem_cons hidx, List.take_succ_cons, List.map_cons]
      simp only [List.length_append, List.length_cons, List.length_nil,
        List.append_assoc, List.cons_append, List.nil_append, Except.ok.injEq,
        ScanState.mk.injEq]
      refine ⟨?_, ?_, ?_, ?_⟩ <;> first | trivial | omega
    · simp only [if_neg hc] at hlen ⊢
      rw [ih _ (by simp only []; omega)]
      simp only [List.append_assoc, List.cons_append, List.nil_append,
        List.singleton_append]

/-- When a fragment holds more unquoted `?` than unconsumed arguments, the
scan fails with the placeholder-overflow error (raised at the first `?` for
which the cursor has exhausted the argument list). -/
theorem scanFragment_overflow {Arg : Type} (d : Dialect) (toArg : Arg → Except String String)
    (args : List Arg) (hconv : ConvTotal toArg) (frag : List Char) :
    ∀ st : ScanState Arg, st.idx ≤ args.length →
    args.length < st.idx + countQ frag st.quo →
    scanFragment d toArg args frag st = .error .placeholderOverflow := by
  induction frag with
  | nil =>
    intro st hidx hlen
    rw [countQ] at hlen
    omega
  | cons ch rest ih =>
    intro st hidx hlen
    rw [countQ_cons] at hlen
    rw [scanFragment_cons]
    by_cases hc : ch = '?' ∧ (if ch = '\'' then !st.quo else st.quo) = false
    · simp only [if_pos hc] at hlen ⊢
      by_cases hlt : st.idx < args.length
      · obtain ⟨s, hs⟩ := hconv args[st.idx]
        rw [dif_pos hlt, hs]
        exact ih _ (by simp only []; omega) (by simp only []; omega)
      · rw [dif_neg hlt]
    · simp only [if_neg hc] at hlen ⊢
      exact ih _ (by simp only []; omega) (by simp only []; omega)

/-- The characters the join-on section scans: the `join_on` fragment when
`other` is supplied (an empty fragment scans no characters). -/
def joinChars (other : Option Other) : List Char :=
  match other with
  | some ot => ot.join_on.data
  | none => []

/-- The characters the having section scans: the `having` fragment, but only
when `group_by` is non-empty — the having branch is nested inside the
group-by branch. -/
def havingChars (other : Option Other) : List Char :=
  match other with
  | some ot => if ot.group_by.length > 0 then ot.having.data else []
  | none => []

/-- SQL text the join-on section appends on success. -/
def joinRender (d : Dialect) (other : Option Other) (quo : Bool) (n : Nat) : List Char :=
  match other with
  | some ot =>
    if ot.join_on.length > 0 then ' ' :: renderFrag d ot.join_on.data quo n else []
  | none => []

/-- SQL text the where section appends on success. -/
def whereRender {Arg : Type} (d : Dialect) (filter : Filter Arg) (quo : Bool) (n : Nat) :
    List Char :=
  if filter.expr.length > 0 then (" where ").data ++ renderFrag d filter.expr.data quo n
  else []

/-- SQL text the group-by/having section appends on success. -/
def ghRender (d : Dialect) (other : Option Other) (closeSub : Bool) (quo : Bool) (n : Nat) :
    List Char :=
  match other with
  | some ot =>
    if ot.group_by.length > 0 then
      (' ' :: ot.group_by.data) ++
        (if ot.having.length > 0 then ' ' :: renderFrag d ot.having.data quo n else []) ++
        (if closeSub then (") sub").data else [])
    else []
  | none => []

theorem strDataNil {s : String} (h : ¬ s.length > 0) : s.data = [] := by
  have h2 : s.length = s.data.length := rfl
  rw [h2] at h
  exact List.length_eq_zero.mp (by omega)

theorem joinSection_ok {Arg : Type} (d : Dialect) (toArg : Arg → Except String String)
    (args : List Arg) (hconv : ConvTotal toArg) (other : Option Other) (st : ScanState Arg)
    (hlen : st.idx + countQ (joinChars other) st.quo ≤ args.length) :
    joinSection d toArg args other st = .ok {
      sql := st.sql ++ joinRender d other st.quo st.params.length,
      params := st.params ++
        ((args.drop st.idx).take (countQ (joinChars other) st.quo)).map Param.arg,
      idx := st.idx + countQ (joinChars other) st.quo,
      quo := finalQuo (joinChars other) st.quo } := by
  match other with
  | none =>
    simp [joinSection, joinChars, joinRender, countQ, finalQuo]
  | some ot =>
    rw [joinSection]
    by_cases hj : ot.join_on.length > 0
    · rw [if_pos hj]
      rw [scanFragment_ok d toArg args hconv _ _ (by simpa [joinChars] using hlen)]
      simp [joinChars, joinRender, hj, List.append_assoc]
    · rw [if_neg hj]
      have hd : ot.join_on.data = [] := strDataNil hj
      simp [joinChars, joinRender, hj, hd, countQ, finalQuo]

theorem whereSection_ok {Arg : Type} (d : Dialect) (toArg : Arg → Except String String)
    (hconv : ConvTotal toArg) (filter : Filter Arg) (st : ScanState Arg)
    (hlen : st.idx + countQ filter.expr.data st.quo ≤ filter.args.length) :
    whereSection d toArg filter st = .ok {
      sql := st.sql ++ whereRender d filter st.quo st.params.length,
      params := st.params ++
        ((filter.args.drop st.idx).take (countQ filter.expr.data st.quo)).map Param.arg,
      idx := st.idx + countQ filter.expr.data st.quo,
      quo := finalQuo filter.expr.data st.quo } := by
  rw [whereSection]
  by_cases he : filter.expr.length > 0
  · rw [if_pos he]
    rw [scanFragment_ok d toArg filter.args hconv _ _ (by simpa using hlen)]
    simp [whereRender, he, List.append_assoc]
  · rw [if_neg he]
    have hd : filter.expr.data = [] := strDataNil he
    simp [whereRender, he, hd, countQ, finalQuo]

theorem groupHavingSection_ok {Arg : Type} (d : Dialect) (toArg : Arg → Except String String)
    (args : List Arg) (hconv : ConvTotal toArg) (other : Option Other) (closeSub : Bool)
    (st : ScanState Arg)
    (hlen : st.idx + countQ (havingChars other) st.quo ≤ args.length) :
    groupHavingSection d toArg args other closeSub st = .ok {
      sql := st.sql ++ ghRender d other closeSub st.quo st.params.length,
      params := st.params ++
        ((args.drop st.idx).take (countQ (havingChars other) st.quo)).map Param.arg,
      idx := st.idx + countQ (havingChars other) st.quo,
      quo := finalQuo (havingChars other) st.quo } := by
  match other with
  | none =>
    simp [groupHavingSection, havingChars, ghRender, countQ, finalQuo]
  | some ot =>
    rw [groupHavingSection]
    by_cases hg : ot.group_by.length > 0
    · rw [if_pos hg]
      by_cases hh : ot.having.length > 0
      · rw [if_pos hh]
        rw [scanFragment_ok d toArg args hconv _ _ (by simpa [havingChars, hg] using hlen)]
        cases closeSub <;> simp [havingChars, ghRender, hg, hh, List.append_assoc]
      · rw [if_neg hh]
        have hd : ot.having.data = [] := strDataNil hh
        cases closeSub <;> simp [havingChars, ghRender, hg, hh, hd, countQ, finalQuo]
    · rw [if_neg hg]
      simp [havingChars, ghRender, hg, countQ, finalQuo]

theorem joinSection_overflow {Arg : Type} (d : Dialect) (toArg : Arg → Except String String)
    (args : List Arg) (hconv : ConvTotal toArg) (other : Option Other) (st : ScanState Arg)
    (hidx : st.idx ≤ args.length)
    (hlen : args.length < st.idx + countQ (joinChars other) st.quo) :
    joinSection d toArg args other st = .error .placeholderOverflow := by
  match other with
  | none => simp only [joinChars, countQ] at hlen; omega
  | some ot =>
    rw [joinSection]
    by_cases hj : ot.join_on.length > 0
    · rw [if_pos hj]
      exact scanFragment_overflow d toArg args hconv _ _ (by simpa using hidx)
        (by simpa [joinChars] using hlen)
    · simp only [joinChars, strDataNil hj, countQ] at hlen
      omega

theorem whereSection_overflow {Arg : Type} (d : Dialect) (toArg : Arg → Except String String)
    (hconv : ConvTotal toArg) (filter : Filter Arg) (st : ScanState Arg)
    (hidx : st.idx ≤ filter.args.length)
    (hlen : filter.args.length < st.idx + countQ filter.expr.data st.quo) :
    whereSection d toArg filter st = .error .placeholderOverflow := by
  rw [whereSection]
  by_cases he : filter.expr.length > 0
  · rw [if_pos he]
    exact scanFragment_overflow d toArg filter.args hconv _ _ (by simpa using hidx)
      (by simpa using hlen)
  · simp only [strDataNil he, countQ] at hlen
    omega

theorem groupHavingSection_overflow {Arg : Type} (d : Dialect)
    (toArg : Arg → Except String String) (args : List Arg) (hconv : ConvTotal toArg)
    (other : Option Other) (closeSub : Bool) (st : ScanState Arg)
    (hidx : st.idx ≤ args.length)
    (hlen : args.length < st.idx + countQ (havingChars other) st.quo) :
    groupHavingSection d toArg args other closeSub st = .error .placeholderOverflow := by
  match other with
  | none => simp only [havingChars, countQ] at hlen; omega
  | some ot =>
    rw [groupHavingSection]
    by_cases hg : ot.group_by.length > 0
    · rw [if_pos hg]
      by_cases hh : ot.having.length > 0
      · rw [if_pos hh]
        rw [scanFragment_overflow d toArg args hconv _ _ (by simpa using hidx)
          (by simpa [havingChars, hg] using hlen)]
      · simp only [havingChars, if_pos hg, strDataNil hh, countQ] at hlen
        omega
    · simp only [havingChars, if_neg hg, countQ] at hlen
      omega

/-! ### Column-list and bind-section characterizations -/

/-- The `(index, column text)` pairs the update SET section emits, in field
order: the override when non-empty (skipping `"-"`), the field name when the
override is empty, nothing when the field is absent from the map. -/
def setPairs (fields : String → Option String) : List (Nat × String) → List (Nat × List Char)
  | [] => []
  | (ix, fd) :: rest =>
    match fields fd with
    | some co =>
      if co.length > 0 then
        if co ≠ "-" then (ix, co.data) :: setPairs fields rest
        else setPairs fields rest
      else (ix, fd.data) :: setPairs fields rest
    | none => setPairs fields rest

/-- Rendering of the SET section: `col=<placeholder>` pairs, comma-separated,
numbered consecutively from global position `n + 1`. -/
def setRender (d : Dialect) : List (Nat × List Char) → Nat → Bool → List Char
  | [], _, _ => []
  | (_, co) :: rest, n, sep =>
    (if sep then [','] else []) ++ co ++ ['='] ++ (d.placeholder (n + 1)).data ++
      setRender d rest (n + 1) true

theorem setSection_ok {Arg : Type} (d : Dialect) (toArg : Arg → Except String String)
    (entity : Nat → Arg) (fields : String → Option String) (hconv : ConvTotal toArg)
    (pairs : List (Nat × String)) : ∀ (sql : List Char) (params : List (Param Arg)) (sep : Bool),
    setSection d toArg entity fields pairs sql params sep =
      .ok (sql ++ setRender d (setPairs fields pairs) params.length sep,
        params ++ (setPairs fields pairs).map (fun p => Param.arg (entity p.1))) := by
  induction pairs with
  | nil => intro sql params sep; simp [setSection, setPairs, setRender]
  | cons p rest ih =>
    intro sql params sep
    obtain ⟨ix, fd⟩ := p
    cases hf : fields fd with
    | none => simp only [setSection, setPairs, hf]; rw [ih]
    | some co =>
      simp only [setSection, setPairs, hf]
      by_cases hlen : co.length > 0
      · rw [if_pos hlen, if_pos hlen]
        by_cases hdash : co ≠ "-"
        · rw [if_pos hdash, if_pos hdash]
          obtain ⟨s, hs⟩ := hconv (entity ix)
          rw [hs, ih]
          cases sep <;> simp [setRender, List.append_assoc]
        · rw [if_neg hdash, if_neg hdash, ih]
      · rw [if_neg hlen, if_neg hlen]
        obtain ⟨s, hs⟩ := hconv (entity ix)
        rw [hs, ih]
        cases sep <;> simp [setRender, List.append_assoc]

/-- The entity slot indices the insert values section binds, in field
order: every field except those overridden to `"-"`. -/
def valuesPairs (fields : String → Option String) : List (Nat × String) → List Nat
  | [] => []
  | (ix, fd) :: rest =>
    if fields fd = some "-" then valuesPairs fields rest
    else ix :: valuesPairs fields rest

/-- Rendering of the values section: placeholders numbered consecutively
from global position `n + 1`, comma-separated. -/
def valuesRender (d : Dialect) : List Nat → Nat → Bool → List Char
  | [], _, _ => []
  | _ :: rest, n, sep =>
    (if sep then [','] else []) ++ (d.placeholder (n + 1)).data ++ valuesRender d rest (n + 1) true

theorem valuesSection_ok {Arg : Type} (d : Dialect) (toArg : Arg → Except String String)
    (entity : Nat → Arg) (fields : String → Option String) (hconv : ConvTotal toArg)
    (pairs : List (Nat × String)) : ∀ (sql : List Char) (params : List (Param Arg)) (sep : Bool),
    valuesSection d toArg entity fields pairs sql params sep =
      .ok (sql ++ valuesRender d (valuesPairs fields pairs) params.length sep,
        params ++ (valuesPairs fields pairs).map (fun ix => Param.arg (entity ix))) := by
  induction pairs with
  | nil => intro sql params sep; simp [valuesSection, valuesPairs, valuesRender]
  | cons p rest ih =>
    intro sql params sep
    obtain ⟨ix, fd⟩ := p
    simp only [valuesSection, valuesPairs]
    by_cases hf : fields fd = some "-"
    · rw [if_pos hf, if_pos hf, ih]
    · rw [if_neg hf, if_neg hf]
      obtain ⟨s, hs⟩ := hconv (entity ix)
      rw [hs, ih]
      cases sep <;> simp [valuesRender, List.append_assoc]

/-- The column texts the insert fields section emits, in field order. -/
def colsList (fields : String → Option String) : List String → List (List Char)
  | [] => []
  | fd :: rest =>
    match fields fd with
    | some co =>
      if co.length > 0 then
        if co ≠ "-" then co.data :: colsList fields rest
        else colsList fields rest
      else fd.data :: colsList fields rest
    | none => colsList fields rest

/-- Comma-separated join of column texts (comma before every entry except
the first, per the `sep` flag). -/
def commaJoin : List (List Char) → Bool → List Char
  | [], _ => []
  | c :: rest, sep => (if sep then [','] else []) ++ c ++ commaJoin rest true

theorem columnsSection_eq (fields : String → Option String) (fnames : List String) :
    ∀ (sql : List Char) (sep : Bool),
    columnsSection fields fnames sql sep = sql ++ commaJoin (colsList fields fnames) sep := by
  induction fnames with
  | nil => intro sql sep; simp [columnsSection, colsList, commaJoin]
  | cons fd rest ih =>
    intro sql sep
    cases hf : fields fd with
    | none => simp only [columnsSection, colsList, hf]; rw [ih]
    | some co =>
      simp only [columnsSection, colsList, hf]
      by_cases hlen : co.length > 0
      · rw [if_pos hlen, if_pos hlen]
        by_cases hdash : co ≠ "-"
        · rw [if_pos hdash, if_pos hdash, ih]
          cases sep <;> simp [commaJoin, List.append_assoc]
        · rw [if_neg hdash, if_neg hdash, ih]
      · rw [if_neg hlen, if_neg hlen, ih]
        cases sep <;> simp [commaJoin, List.append_assoc]

/-- The column texts the select list emits, in field order (`co as fd` for
a non-empty override, `fd` otherwise, skipping `"-"`). -/
def selColsList (fields : String → Option String) : List String → List (List Char)
  | [] => []
  | fd :: rest =>
    match fields fd with
    | some co =>
      if co.length > 0 then
        if co ≠ "-" then (co.data ++ (" as ").data ++ fd.data) :: selColsList fields rest
        else selColsList fields rest
      else fd.data :: selColsList fields rest
    | none => selColsList fields rest

theorem selectSection_eq (fields : String → Option String) (fnames : List String) :
    ∀ (sql : List Char) (sep : Bool),
    selectSection fields fnames sql sep = sql ++ commaJoin (selColsList fields fnames) sep := by
  induction fnames with
  | nil => intro sql sep; simp [selectSection, selColsList, commaJoin]
  | cons fd rest ih =>
    intro sql sep
    cases hf : fields fd with
    | none => simp only [selectSection, selColsList, hf]; rw [ih]
    | some co =>
      simp only [selectSection, selColsList, hf]
      by_cases hlen : co.length > 0
      · rw [if_pos hlen, if_pos hlen]
        by_cases hdash : co ≠ "-"
        · rw [if_pos hdash, if_pos hdash, ih]
          cases sep <;> simp [commaJoin, List.append_assoc]
        · rw [if_neg hdash, if_neg hdash, ih]
      · rw [if_neg hlen, if_neg hlen, ih]
        cases sep <;> simp [commaJoin, List.append_assoc]

/-- Join of column texts with a trailing comma after every entry (the shape
of the paginated query's select list, where `row_number()` follows). -/
def trailingJoin : List (List Char) → List Char
  | [] => []
  | c :: rest => c ++ [','] ++ trailingJoin rest

theorem limitSelectSection_eq (fields : String → Option String) (fnames : List String) :
    ∀ sql : List Char,
    limitSelectSection fields fnames sql = sql ++ trailingJoin (selColsList fields fnames) := by
  induction fnames with
  | nil => intro sql; simp [limitSelectSection, selColsList, trailingJoin]
  | cons fd rest ih =>
    intro sql
    cases hf : fields fd with
    | none => simp only [limitSelectSection, selColsList, hf]; rw [ih]
    | some co =>
      simp only [limitSelectSection, selColsList, hf]
      by_cases hlen : co.length > 0
      · rw [if_pos hlen, if_pos hlen]
        by_cases hdash : co ≠ "-"
        · rw [if_pos hdash, if_pos hdash, ih]
          simp [trailingJoin, List.append_assoc]
        · rw [if_neg hdash, if_neg hdash, ih]
      · rw [if_neg hlen, if_neg hlen, ih]
        simp [trailingJoin, List.append_assoc]

/-- A slot all of whose occurrences in the processed pair list carry the
`"-"` override is never written by row materialization. -/
theorem materializeRow_skip {Arg Row : Type} (fromRow : String → Row → Arg → Except String Arg)
    (fields : String → Option String) (row : Row) (ix : Nat)
    (pairs : List (Nat × String))
    (hskip : ∀ p ∈ pairs, p.1 = ix → fields p.2 = some "-") :
    ∀ (ent ent2 : Nat → Arg),
    materializeRow fromRow fields row pairs ent = .ok ent2 → ent2 ix = ent ix := by
  induction pairs with
  | nil =>
    intro ent ent2 h
    rw [materializeRow] at h
    cases h
    rfl
  | cons p rest ih =>
    intro ent ent2 h
    obtain ⟨j, fd⟩ := p
    rw [materializeRow] at h
    by_cases hf : fields fd = some "-"
    · rw [if_pos hf] at h
      exact ih (fun q hq => hskip q (List.mem_cons_of_mem _ hq)) ent ent2 h
    · rw [if_neg hf] at h
      have hj : j ≠ ix := fun hji => hf (hskip (j, fd) (List.mem_cons_self _ _) hji)
      cases hr : fromRow fd row (ent j) with
      | error msg => rw [hr] at h; cases h
      | ok v =>
        rw [hr] at h
        have := ih (fun q hq => hskip q (List.mem_cons_of_mem _ hq)) _ ent2 h
        rw [this]
        simp [hj.symm]

/-! ### Per-claim theorems: C2, C4, C5, C9, C10 -/

/-- A shared concrete conversion function for witnesses: every `Nat`
argument converts to its decimal rendering. -/
def toArgOk : Nat → Except String String := fun n => .ok (Nat.repr n)

theorem toArgOk_total : ConvTotal toArgOk := fun a => ⟨Nat.repr a, rfl⟩

/-- Claim C2: during a fragment scan, a `?` read while the quote-parity flag
is odd is copied verbatim into the SQL and consumes no argument; a `?` at
even parity is replaced by the dialect placeholder for the next global bind
position and consumes the next argument; and every `'` toggles the parity
flag while being copied verbatim. -/
theorem claim2_quote_skipping {Arg : Type} (d : Dialect) (toArg : Arg → Except String String)
    (args : List Arg) (rest : List Char) (st : ScanState Arg) :
    (st.quo = true →
      scanFragment d toArg args ('?' :: rest) st =
        scanFragment d toArg args rest { st with sql := st.sql ++ ['?'], quo := st.quo }) ∧
    (st.quo = false → ∀ (h : st.idx < args.length) (s : String), toArg args[st.idx] = .ok s →
      scanFragment d toArg args ('?' :: rest) st =
        scanFragment d toArg args rest
          { sql := st.sql ++ (d.placeholder (st.params.length + 1)).data,
            params := st.params ++ [.arg args[st.idx]],
            idx := st.idx + 1,
            quo := st.quo }) ∧
    (scanFragment d toArg args ('\'' :: rest) st =
      scanFragment d toArg args rest { st with sql := st.sql ++ ['\''], quo := ! st.quo }) := by
  refine ⟨fun hq => ?_, fun hq h s hs => ?_, ?_⟩
  · rw [scanFragment_cons]
    rw [if_neg (by simp [hq])]
    simp [hq]
  · rw [scanFragment_cons]
    rw [if_pos (by simp [hq]), dif_pos h, hs]
    simp [hq]
  · rw [scanFragment_cons]
    rw [if_neg (by simp)]
    simp

theorem claim2_witness :
    ((⟨[], [], 0, true⟩ : ScanState Nat).quo = true ∧
      (⟨[], [], 0, false⟩ : ScanState Nat).quo = false ∧
      (0 : Nat) < [5].length ∧ toArgOk 5 = .ok "5") ∧
    scanFragment .mysql toArgOk [5] ['?'] ⟨[], [], 0, true⟩ =
      scanFragment .mysql toArgOk [5] [] ⟨['?'], [], 0, true⟩ ∧
    scanFragment .mysql toArgOk [5] ['?'] ⟨[], [], 0, false⟩ =
      scanFragment .mysql toArgOk [5] [] ⟨[] ++ (Dialect.placeholder .mysql 1).data,
        [Param.arg 5], 1, false⟩ ∧
    scanFragment .mysql toArgOk [5] ['\''] ⟨[], [], 0, true⟩ =
      scanFragment .mysql toArgOk [5] [] ⟨['\''], [], 0, false⟩ := by
  refine ⟨⟨rfl, rfl, by decide, rfl⟩, ?_, ?_, ?_⟩
  · simpa using (claim2_quote_skipping .mysql toArgOk [5] [] ⟨[], [], 0, true⟩).1 rfl
  · simpa using (claim2_quote_skipping .mysql toArgOk [5] [] ⟨[], [], 0, false⟩).2.1 rfl
      (by decide) "5" (by rfl)
  · simpa using (claim2_quote_skipping .mysql toArgOk [5] [] ⟨[], [], 0, true⟩).2.2

/-- Claim C4: an update or delete whose filter has an empty expression (and,
for the build to complete, no attached arguments) builds successfully with
no WHERE clause at all — the delete statement is exactly
`delete from <table>` and the update statement is exactly
`update <table> set <assignments>`, an unconditional mutation of every row;
no guard rejects the empty-expression case. -/
theorem claim4_unconditional_mutation {Arg : Type} (d : Dialect)
    (toArg : Arg → Except String String) (table : String) (fnames : List String)
    (fields : String → Option String) (entity : Nat → Arg) (filter : Filter Arg)
    (hconv : ConvTotal toArg) (hexpr : filter.expr = "") (hargs : filter.args = []) :
    deleteBuild d toArg table filter = .ok (("delete from " ++ table).data, []) ∧
    updateBuild d toArg table fnames fields entity filter =
      .ok (("update " ++ table ++ " set ").data ++ setRender d (setPairs fields fnames.enum) 0 false,
        (setPairs fields fnames.enum).map (fun p => Param.arg (entity p.1))) := by
  obtain ⟨fe, fa⟩ := filter
  simp only at hexpr hargs
  subst hexpr
  subst hargs
  constructor
  · simp [deleteBuild, whereSection]
  · rw [updateBuild, setSection_ok d toArg entity fields hconv fnames.enum]
    simp [whereSection]

theorem claim4_witness :
    (ConvTotal toArgOk ∧
      (⟨"", []⟩ : Filter Nat).expr = "" ∧ (⟨"", []⟩ : Filter Nat).args = []) ∧
    deleteBuild .postgres toArgOk "clazz" (⟨"", []⟩ : Filter Nat) =
      .ok (("delete from clazz").data, []) ∧
    updateBuild .postgres toArgOk "clazz" ["id", "name"] (fun _ => some "") (fun ix => ix)
        (⟨"", []⟩ : Filter Nat) =
      .ok (("update clazz set ").data ++
          setRender .postgres (setPairs (fun _ => some "") (["id", "name"]).enum) 0 false,
        (setPairs (fun _ => some "") (["id", "name"]).enum).map
          (fun p => Param.arg ((fun ix => ix) p.1))) := by
  refine ⟨⟨toArgOk_total, rfl, rfl⟩, ?_⟩
  simpa using claim4_unconditional_mutation .postgres toArgOk "clazz" ["id", "name"]
    (fun _ => some "") (fun ix => ix) ⟨"", []⟩ toArgOk_total rfl rfl

/-! Skip lemmas: a field overridden to `"-"` is a no-op for every emitting
loop, wherever it sits in the field list. -/

theorem columnsSection_skip (fields : String → Option String) {fd : String}
    (hdash : fields fd = some "-") (l2 : List String) (l1 : List String) :
    ∀ (sql : List Char) (sep : Bool),
    columnsSection fields (l1 ++ fd :: l2) sql sep = columnsSection fields (l1 ++ l2) sql sep := by
  induction l1 with
  | nil =>
    intro sql sep
    simp only [List.nil_append, columnsSection, hdash]
    rw [if_pos (by decide), if_neg (by decide)]
  | cons c l1 ih =>
    intro sql sep
    cases hf : fields c with
    | none =>
      simp only [List.cons_append, columnsSection, hf]
      exact ih _ _
    | some co =>
      simp only [List.cons_append, columnsSection, hf]
      by_cases h1 : co.length > 0
      · rw [if_pos h1, if_pos h1]
        by_cases h2 : co ≠ "-"
        · rw [if_pos h2, if_pos h2]; exact ih _ _
        · rw [if_neg h2, if_neg h2]; exact ih _ _
      · rw [if_neg h1, if_neg h1]; exact ih _ _

theorem selectSection_skip (fields : String → Option String) {fd : String}
    (hdash : fields fd = some "-") (l2 : List String) (l1 : List String) :
    ∀ (sql : List Char) (sep : Bool),
    selectSection fields (l1 ++ fd :: l2) sql sep = selectSection fields (l1 ++ l2) sql sep := by
  induction l1 with
  | nil =>
    intro sql sep
    simp only [List.nil_append, selectSection, hdash]
    rw [if_pos (by decide), if_neg (by decide)]
  | cons c l1 ih =>
    intro sql sep
    cases hf : fields c with
    | none =>
      simp only [List.cons_append, selectSection, hf]
      exact ih _ _
    | some co =>
      simp only [List.cons_append, selectSection, hf]
      by_cases h1 : co.length > 0
      · rw [if_pos h1, if_pos h1]
        by_cases h2 : co ≠ "-"
        · rw [if_pos h2, if_pos h2]; exact ih _ _
        · rw [if_neg h2, if_neg h2]; exact ih _ _
      · rw [if_neg h1, if_neg h1]; exact ih _ _

theorem limitSelectSection_skip (fields : String → Option String) {fd : String}
    (hdash : fields fd = some "-") (l2 : List String) (l1 : List String) :
    ∀ sql : List Char,
    limitSelectSection fields (l1 ++ fd :: l2) sql = limitSelectSection fields (l1 ++ l2) sql := by
  induction l1 with
  | nil =>
    intro sql
    simp only [List.nil_append, limitSelectSection, hdash]
    rw [if_pos (by decide), if_neg (by decide)]
  | cons c l1 ih =>
    intro sql
    cases hf : fields c with
    | none =>
      simp only [List.cons_append, limitSelectSection, hf]
      exact ih _
    | some co =>
      simp only [List.cons_append, limitSelectSection, hf]
      by_cases h1 : co.length > 0
      · rw [if_pos h1, if_pos h1]
        by_cases h2 : co ≠ "-"
        · rw [if_pos h2, if_pos h2]; exact ih _
        · rw [if_neg h2, if_neg h2]; exact ih _
      · rw [if_neg h1, if_neg h1]; exact ih _

theorem valuesSection_skip {Arg : Type} (d : Dialect) (toArg : Arg → Except String String)
    (entity : Nat → Arg) (fields : String → Option String) {jx : Nat} {fd : String}
    (hdash : fields fd = some "-") (l2 : List (Nat × String)) (l1 : List (Nat × String)) :
    ∀ (sql : List Char) (params : List (Param Arg)) (sep : Bool),
    valuesSection d toArg entity fields (l1 ++ (jx, fd) :: l2) sql params sep =
      valuesSection d toArg entity fields (l1 ++ l2) sql params sep := by
  induction l1 with
  | nil =>
    intro sql params sep
    simp only [List.nil_append, valuesSection]
    rw [if_pos hdash]
  | cons p l1 ih =>
    intro sql params sep
    obtain ⟨j, f⟩ := p
    simp only [List.cons_append, valuesSection]
    by_cases hf : fields f = some "-"
    · rw [if_pos hf, if_pos hf]; exact ih _ _ _
    · rw [if_neg hf, if_neg hf]
      cases toArg (entity j) with
      | error msg => rfl
      | ok s => exact ih _ _ _

theorem setSection_skip {Arg : Type} (d : Dialect) (toArg : Arg → Except String String)
    (entity : Nat → Arg) (fields : String → Option String) {jx : Nat} {fd : String}
    (hdash : fields fd = some "-") (l2 : List (Nat × String)) (l1 : List (Nat × String)) :
    ∀ (sql : List Char) (params : List (Param Arg)) (sep : Bool),
    setSection d toArg entity fields (l1 ++ (jx, fd) :: l2) sql params sep =
      setSection d toArg entity fields (l1 ++ l2) sql params sep := by
  induction l1 with
  | nil =>
    intro sql params sep
    simp only [List.nil_append, setSection, hdash]
    rw [if_pos (by decide), if_neg (by decide)]
  | cons p l1 ih =>
    intro sql params sep
    obtain ⟨j, f⟩ := p
    cases hf : fields f with
    | none =>
      simp only [List.cons_append, setSection, hf]
      exact ih _ _ _
    | some co =>
      simp only [List.cons_append, setSection, hf]
      by_cases h1 : co.length > 0
      · rw [if_pos h1, if_pos h1]
        by_cases h2 : co ≠ "-"
        · rw [if_pos h2, if_pos h2]
          cases toArg (entity j) with
          | error msg => rfl
          | ok s => exact ih _ _ _
        · rw [if_neg h2, if_neg h2]; exact ih _ _ _
      · rw [if_neg h1, if_neg h1]
        cases toArg (entity j) with
        | error msg => rfl
        | ok s => exact ih _ _ _

theorem eraseIdxDecomp {α : Type} {l : List α} {ix : Nat} {a : α} (h : l[ix]? = some a) :
    l = l.take ix ++ a :: l.drop (ix + 1) ∧ l.eraseIdx ix = l.take ix ++ l.drop (ix + 1) := by
  have hlt : ix < l.length := by
    by_contra hge
    rw [List.getElem?_eq_none (by omega)] at h
    cases h
  have hget : l[ix] = a := by
    rw [List.getElem?_eq_getElem hlt] at h
    exact Option.some_inj.mp h
  constructor
  · conv_lhs => rw [← List.take_append_drop ix l]
    rw [List.drop_eq_getElem_cons hlt, hget]
  · exact List.eraseIdx_eq_take_drop_succ l ix

/-- Claim C5: a field whose override is the sentinel `"-"` contributes
nothing to the INSERT column list, the INSERT values binds, the UPDATE SET
clause, the SELECT column lists (plain and paginated) — each loop produces
the same output as if the field were absent from the list — and row
materialization leaves its slot at the clone's original value. -/
theorem claim5_field_exclusion {Arg Row : Type} (d : Dialect)
    (toArg : Arg → Except String String) (entity : Nat → Arg)
    (fields : String → Option String) (fnames : List String) (ix : Nat) (fd : String)
    (fromRow : String → Row → Arg → Except String Arg) (row : Row)
    (hix : fnames[ix]? = some fd) (hdash : fields fd = some "-") :
    (∀ (sql : List Char) (sep : Bool),
      columnsSection fields fnames sql sep = columnsSection fields (fnames.eraseIdx ix) sql sep) ∧
    (∀ (sql : List Char) (sep : Bool),
      selectSection fields fnames sql sep = selectSection fields (fnames.eraseIdx ix) sql sep) ∧
    (∀ sql : List Char,
      limitSelectSection fields fnames sql = limitSelectSection fields (fnames.eraseIdx ix) sql) ∧
    (∀ (sql : List Char) (params : List (Param Arg)) (sep : Bool),
      valuesSection d toArg entity fields fnames.enum sql params sep =
        valuesSection d toArg entity fields (fnames.enum.eraseIdx ix) sql params sep) ∧
    (∀ (sql : List Char) (params : List (Param Arg)) (sep : Bool),
      setSection d toArg entity fields fnames.enum sql params sep =
        setSection d toArg entity fields (fnames.enum.eraseIdx ix) sql params sep) ∧
    (∀ ent ent2 : Nat → Arg,
      materializeRow fromRow fields row fnames.enum ent = .ok ent2 → ent2 ix = ent ix) := by
  obtain ⟨hdec, herase⟩ := eraseIdxDecomp hix
  have henum : fnames.enum[ix]? = some (ix, fd) := by
    rw [List.enum]
    rw [List.getElem?_enumFrom 0 fnames ix, hix]
    simp
  obtain ⟨hdecE, heraseE⟩ := eraseIdxDecomp henum
  refine ⟨?_, ?_, ?_, ?_, ?_, ?_⟩
  · intro sql sep
    conv_lhs => rw [hdec]
    rw [herase]
    exact columnsSection_skip fields hdash _ _ _ _
  · intro sql sep
    conv_lhs => rw [hdec]
    rw [herase]
    exact selectSection_skip fields hdash _ _ _ _
  · intro sql
    conv_lhs => rw [hdec]
    rw [herase]
    exact limitSelectSection_skip fields hdash _ _ _
  · intro sql params sep
    conv_lhs => rw [hdecE]
    rw [heraseE]
    exact valuesSection_skip d toArg entity fields hdash _ _ _ _ _
  · intro sql params sep
    conv_lhs => rw [hdecE]
    rw [heraseE]
    exact setSection_skip d toArg entity fields hdash _ _ _ _ _
  · intro ent ent2 h
    refine materializeRow_skip fromRow fields row ix fnames.enum ?_ ent ent2 h
    intro p hp hpix
    obtain ⟨i, a⟩ := p
    simp only at hpix ⊢
    subst hpix
    have hmem := List.mk_mem_enum_iff_getElem?.mp hp
    rw [hix] at hmem
    rw [← Option.some_inj.mp hmem]
    exact hdash

theorem claim5_witness :
    ((["id", "name"] : List String)[1]? = some "name" ∧
      (fun fd => if fd = "name" then some "-" else some "") "name" = some ("-" : String)) ∧
    (∀ (sql : List Char) (sep : Bool),
      columnsSection (fun fd => if fd = "name" then some "-" else some "") ["id", "name"] sql sep =
        columnsSection (fun fd => if fd = "name" then some "-" else some "")
          (["id", "name"].eraseIdx 1) sql sep) ∧
    (∀ ent ent2 : Nat → Nat,
      materializeRow (fun _ _ v => .ok (v + 1))
        (fun fd => if fd = "name" then some "-" else some "") ()
        (["id", "name"].enum) ent = .ok ent2 → ent2 1 = ent 1) := by
  refine ⟨⟨by decide, by decide⟩, ?_, ?_⟩
  · exact (claim5_field_exclusion .postgres toArgOk (fun ix => ix)
      (fun fd => if fd = "name" then some "-" else some "") ["id", "name"] 1 "name"
      (fun _ _ v => .ok (v + 1)) () (by decide) (by decide)).1
  · exact (claim5_field_exclusion .postgres toArgOk (fun ix => ix)
      (fun fd => if fd = "name" then some "-" else some "") ["id", "name"] 1 "name"
      (fun _ _ v => .ok (v + 1)) () (by decide) (by decide)).2.2.2.2.2

theorem takeAddSplit {α : Type} (l : List α) (m n : Nat) :
    l.take (m + n) = l.take m ++ (l.drop m).take n := by
  rw [List.take_drop]
  conv_lhs => rw [← List.take_append_drop m (l.take (m + n))]
  rw [List.take_take, Nat.min_eq_left (by omega)]

/-- The join-on → where → group-by/having scan chain shared by the count,
query and paginated-query builders, characterized in one step for an
arbitrary continuation `k`. -/
theorem pipeline_ok {Arg β : Type} (d : Dialect) (toArg : Arg → Except String String)
    (filter : Filter Arg) (other : Option Other) (cs : Bool)
    (hconv : ConvTotal toArg) (k : ScanState Arg → Except BuildError β) (sql0 : List Char)
    (hlen : countQ (joinChars other) false
        + countQ filter.expr.data (finalQuo (joinChars other) false)
        + countQ (havingChars other)
            (finalQuo filter.expr.data (finalQuo (joinChars other) false))
        ≤ filter.args.length) :
    pipeline d toArg filter other cs k sql0 =
    k { sql := sql0 ++ joinRender d other false 0
          ++ whereRender d filter (finalQuo (joinChars other) false)
              (countQ (joinChars other) false)
          ++ ghRender d other cs
              (finalQuo filter.expr.data (finalQuo (joinChars other) false))
              (countQ (joinChars other) false +
                countQ filter.expr.data (finalQuo (joinChars other) false)),
        params := (filter.args.take (countQ (joinChars other) false
            + countQ filter.expr.data (finalQuo (joinChars other) false)
            + countQ (havingChars other)
                (finalQuo filter.expr.data (finalQuo (joinChars other) false)))).map Param.arg,
        idx := countQ (joinChars other) false
            + countQ filter.expr.data (finalQuo (joinChars other) false)
            + countQ (havingChars other)
                (finalQuo filter.expr.data (finalQuo (joinChars other) false)),
        quo := finalQuo (havingChars other)
            (finalQuo filter.expr.data (finalQuo (joinChars other) false)) } := by
  rw [pipeline]
  rw [joinSection_ok d toArg filter.args hconv other ⟨sql0, [], 0, false⟩
    (by simp only []; omega)]
  simp only [List.drop_zero, Nat.zero_add, List.length_nil, List.nil_append]
  rw [whereSection_ok d toArg hconv filter _ (by simp only []; omega)]
  simp only [List.length_append, List.length_map, List.length_take]
  rw [groupHavingSection_ok d toArg filter.args hconv other cs _ (by simp only []; omega)]
  simp only []
  have hm1 : countQ (joinChars other) false ⊓ filter.args.length =
      countQ (joinChars other) false := Nat.min_eq_left (by omega)
  have hlen1 : (List.map Param.arg (List.take (countQ (joinChars other) false) filter.args) ++
      List.map Param.arg (List.take (countQ filter.expr.data (finalQuo (joinChars other) false))
        (List.drop (countQ (joinChars other) false) filter.args))).length =
      countQ (joinChars other) false +
        countQ filter.expr.data (finalQuo (joinChars other) false) := by
    simp only [List.length_append, List.length_map, List.length_take, List.length_drop]
    omega
  rw [hm1, hlen1]
  congr 2
  rw [takeAddSplit filter.args
    (countQ (joinChars other) false + countQ filter.expr.data (finalQuo (joinChars other) false))
    (countQ (havingChars other) (finalQuo filter.expr.data (finalQuo (joinChars other) false)))]
  rw [takeAddSplit filter.args (countQ (joinChars other) false)
    (countQ filter.expr.data (finalQuo (joinChars other) false))]
  simp [List.append_assoc]

/-- When the scanned fragments hold more unquoted `?` than the filter has
arguments, the join-on → where → group-having chain fails with the
placeholder-overflow error, whatever continuation follows. -/
theorem pipeline_overflow {Arg β : Type} (d : Dialect) (toArg : Arg → Except String String)
    (filter : Filter Arg) (other : Option Other) (cs : Bool)
    (hconv : ConvTotal toArg) (k : ScanState Arg → Except BuildError β) (sql0 : List Char)
    (hlen : filter.args.length < countQ (joinChars other) false
        + countQ filter.expr.data (finalQuo (joinChars other) false)
        + countQ (havingChars other)
            (finalQuo filter.expr.data (finalQuo (joinChars other) false))) :
    pipeline d toArg filter other cs k sql0 =
      (Except.error BuildError.placeholderOverflow : Except BuildError β) := by
  rw [pipeline]
  by_cases h1 : filter.args.length < countQ (joinChars other) false
  · rw [joinSection_overflow d toArg filter.args hconv other _ (by simp only []; omega)
      (by simp only []; omega)]
  · rw [joinSection_ok d toArg filter.args hconv other _ (by simp only []; omega)]
    simp only [List.drop_zero, Nat.zero_add, List.length_nil, List.nil_append]
    by_cases h2 : filter.args.length < countQ (joinChars other) false
        + countQ filter.expr.data (finalQuo (joinChars other) false)
    · rw [whereSection_overflow d toArg hconv filter _ (by simp only []; omega)
        (by simp only []; omega)]
    · rw [whereSection_ok d toArg hconv filter _ (by simp only []; omega)]
      simp only []
      rw [groupHavingSection_overflow d toArg filter.args hconv other cs _
        (by simp only [List.length_append, List.length_map, List.length_take,
          List.length_drop]; omega)
        (by simp only [List.length_append, List.length_map, List.length_take,
          List.length_drop]; omega)]

theorem strDataEmpty : ("" : String).data = [] := rfl

theorem whereRender_empty {Arg : Type} (d : Dialect) (args : List Arg) (quo : Bool) (n : Nat) :
    whereRender d ⟨"", args⟩ quo n = [] := by
  simp [whereRender]

theorem ghRender_nogroup (d : Dialect) (j hv : String) (cs quo : Bool) (n : Nat) :
    ghRender d (some ⟨j, "", hv⟩) cs quo n = [] := by
  simp [ghRender]

theorem havingChars_nogroup (j hv : String) : havingChars (some ⟨j, "", hv⟩) = [] := by
  simp [havingChars]

/-- Claim C9: when `other.group_by` is empty the having fragment is never
scanned — the count and query builds do not depend on the having text at
all — and a filter whose arguments exceed the unquoted `?` of the join-on
and where fragments (threading quote parity across them) fails with the
argument-count-mismatch error. -/
theorem claim9_having_gated {Arg : Type} (d : Dialect) (toArg : Arg → Except String String)
    (table : String) (fnames : List String) (fields : String → Option String)
    (order : String) (filter : Filter Arg) (j hv hv2 : String) :
    countBuild d toArg table filter (some ⟨j, "", hv⟩) =
      countBuild d toArg table filter (some ⟨j, "", hv2⟩) ∧
    queryBuild d toArg table fnames fields order filter (some ⟨j, "", hv⟩) =
      queryBuild d toArg table fnames fields order filter (some ⟨j, "", hv2⟩) ∧
    (ConvTotal toArg →
      countQ (j.data ++ filter.expr.data) false < filter.args.length →
      countBuild d toArg table filter (some ⟨j, "", hv⟩) = .error .argumentCountMismatch) := by
  refine ⟨rfl, rfl, fun hconv hlt => ?_⟩
  rw [countQ_append] at hlt
  simp only [countBuild]
  rw [pipeline_ok d toArg filter (some ⟨j, "", hv⟩) true hconv _ _
    (by simp only [havingChars_nogroup, joinChars, countQ]; omega)]
  simp only [havingChars_nogroup, joinChars, countQ]
  rw [if_pos (by omega)]

theorem claim9_witness :
    (ConvTotal toArgOk ∧
      countQ (("c=?").data ++ ("" : String).data) false < ([5, 6] : List Nat).length) ∧
    countBuild .sqlite toArgOk "t" (⟨"", [5, 6]⟩ : Filter Nat) (some ⟨"c=?", "", "having x>?"⟩) =
      countBuild .sqlite toArgOk "t" (⟨"", [5, 6]⟩ : Filter Nat) (some ⟨"c=?", "", ""⟩) ∧
    queryBuild .sqlite toArgOk "t" ["id"] (fun _ => some "") "" (⟨"", [5, 6]⟩ : Filter Nat)
        (some ⟨"c=?", "", "having x>?"⟩) =
      queryBuild .sqlite toArgOk "t" ["id"] (fun _ => some "") "" (⟨"", [5, 6]⟩ : Filter Nat)
        (some ⟨"c=?", "", ""⟩) ∧
    countBuild .sqlite toArgOk "t" (⟨"", [5, 6]⟩ : Filter Nat) (some ⟨"c=?", "", "having x>?"⟩) =
      .error .argumentCountMismatch := by
  obtain ⟨h1, h2, h3⟩ := claim9_having_gated .sqlite toArgOk "t" ["id"] (fun _ => some "") ""
    (⟨"", [5, 6]⟩ : Filter Nat) "c=?" "having x>?" ""
  exact ⟨⟨toArgOk_total, by decide⟩, h1, h2, h3 toArgOk_total (by decide)⟩

/-- Claim C10: an update or delete whose filter has an empty expression but
a non-empty argument list fails with the argument-count-mismatch error — the
build function returns the error instead of a statement, so nothing reaches
the transport — even though the same filter shape is consumable by count
through join-on placeholders. -/
theorem claim10_empty_expr_args {Arg : Type} (d : Dialect)
    (toArg : Arg → Except String String) (table : String) (fnames : List String)
    (fields : String → Option String) (entity : Nat → Arg) (filter : Filter Arg)
    (hconv : ConvTotal toArg) (hexpr : filter.expr = "") (hargs : filter.args ≠ []) :
    deleteBuild d toArg table filter = .error .argumentCountMismatch ∧
    updateBuild d toArg table fnames fields entity filter = .error .argumentCountMismatch ∧
    (∀ a : Arg, countBuild d toArg table ⟨"", [a]⟩ (some ⟨"on c=?", "", ""⟩) =
      .ok ((("select count(*)" ++ " from " ++ table).data) ++
        joinRender d (some ⟨"on c=?", "", ""⟩) false 0, [Param.arg a])) := by
  obtain ⟨fe, fa⟩ := filter
  simp only at hexpr hargs
  subst hexpr
  have hlen0 : fa.length ≠ 0 := by
    intro h0
    exact hargs (List.length_eq_zero.mp h0)
  refine ⟨?_, ?_, fun a => ?_⟩
  · simp only [deleteBuild, whereSection]
    rw [if_neg (by decide)]
    simp only []
    rw [if_pos (by omega)]
  · rw [updateBuild, setSection_ok d toArg entity fields hconv fnames.enum]
    simp only [whereSection]
    rw [if_neg (by decide)]
    simp only []
    rw [if_pos (by omega)]
  · simp only [countBuild]
    rw [pipeline_ok d toArg ⟨"", [a]⟩ (some ⟨"on c=?", "", ""⟩) true hconv _ _
      (by simp only [joinChars, havingChars_nogroup, strDataEmpty, countQ,
            List.length_cons, List.length_nil]
          decide)]
    simp only [havingChars_nogroup, joinChars, strDataEmpty, countQ, whereRender_empty,
      ghRender_nogroup, List.append_nil, List.length_cons, List.length_nil]
    rw [if_neg (by decide)]
    have hg : (decide (("" : String).length > 0)) = false := by decide
    simp [hg]

theorem claim10_witness :
    (ConvTotal toArgOk ∧
      (⟨"", [7]⟩ : Filter Nat).expr = "" ∧ (⟨"", [7]⟩ : Filter Nat).args ≠ []) ∧
    deleteBuild .mysql toArgOk "t" (⟨"", [7]⟩ : Filter Nat) = .error .argumentCountMismatch ∧
    updateBuild .mysql toArgOk "t" ["id"] (fun _ => some "") (fun ix => ix)
      (⟨"", [7]⟩ : Filter Nat) = .error .argumentCountMismatch ∧
    (∀ a : Nat, countBuild .mysql toArgOk "t" ⟨"", [a]⟩ (some ⟨"on c=?", "", ""⟩) =
      .ok ((("select count(*)" ++ " from " ++ "t").data) ++
        joinRender .mysql (some ⟨"on c=?", "", ""⟩) false 0, [Param.arg a])) := by
  refine ⟨⟨toArgOk_total, rfl, by decide⟩, ?_⟩
  exact claim10_empty_expr_args .mysql toArgOk "t" ["id"] (fun _ => some "") (fun ix => ix)
    ⟨"", [7]⟩ toArgOk_total rfl (by decide)

/-- Claim C1: for every statement build that scans fragments — update,
delete, insert_one with a filter, count and query — on every dialect: when
the scanned fragments hold exactly as many unquoted `?` as the filter has
arguments, the build succeeds and binds the filter's arguments left-to-right
in scan order after any entity-field binds; when they hold more, the build
fails with the placeholder-overflow error (raised at the first excess `?`);
when they hold fewer, it fails with the argument-count-mismatch error after
the full scan.  For count and query the scanned fragments are join_on, the
filter expression and (when group_by is non-empty) having, sharing one
quote-parity flag in that order. -/
theorem claim1_placeholder_parity {Arg : Type} (d : Dialect)
    (toArg : Arg → Except String String) (table : String) (fnames : List String)
    (fields : String → Option String) (entity : Nat → Arg) (filter : Filter Arg)
    (other : Option Other) (order : String) (hconv : ConvTotal toArg) :
    ((countQ filter.expr.data false = filter.args.length →
        ∃ sql setP, updateBuild d toArg table fnames fields entity filter =
          .ok (sql, setP ++ filter.args.map Param.arg)) ∧
      (filter.args.length < countQ filter.expr.data false →
        updateBuild d toArg table fnames fields entity filter = .error .placeholderOverflow) ∧
      (countQ filter.expr.data false < filter.args.length →
        updateBuild d toArg table fnames fields entity filter =
          .error .argumentCountMismatch)) ∧
    ((countQ filter.expr.data false = filter.args.length →
        ∃ sql, deleteBuild d toArg table filter = .ok (sql, filter.args.map Param.arg)) ∧
      (filter.args.length < countQ filter.expr.data false →
        deleteBuild d toArg table filter = .error .placeholderOverflow) ∧
      (countQ filter.expr.data false < filter.args.length →
        deleteBuild d toArg table filter = .error .argumentCountMismatch)) ∧
    ((countQ filter.expr.data false = filter.args.length →
        ∃ sql valsP, insertOneBuild d toArg table fnames fields entity (some filter) =
          .ok (sql, valsP ++ filter.args.map Param.arg)) ∧
      (filter.args.length < countQ filter.expr.data false →
        insertOneBuild d toArg table fnames fields entity (some filter) =
          .error .placeholderOverflow) ∧
      (countQ filter.expr.data false < filter.args.length →
        insertOneBuild d toArg table fnames fields entity (some filter) =
          .error .argumentCountMismatch)) ∧
    ((countQ (joinChars other ++ filter.expr.data ++ havingChars other) false =
          filter.args.length →
        ∃ sql, countBuild d toArg table filter other =
          .ok (sql, filter.args.map Param.arg)) ∧
      (filter.args.length <
          countQ (joinChars other ++ filter.expr.data ++ havingChars other) false →
        countBuild d toArg table filter other = .error .placeholderOverflow) ∧
      (countQ (joinChars other ++ filter.expr.data ++ havingChars other) false <
          filter.args.length →
        countBuild d toArg table filter other = .error .argumentCountMismatch)) ∧
    ((countQ (joinChars other ++ filter.expr.data ++ havingChars other) false =
          filter.args.length →
        ∃ sql, queryBuild d toArg table fnames fields order filter other =
          .ok (sql, filter.args.map Param.arg)) ∧
      (filter.args.length <
          countQ (joinChars other ++ filter.expr.data ++ havingChars other) false →
        queryBuild d toArg table fnames fields order filter other =
          .error .placeholderOverflow) ∧
      (countQ (joinChars other ++ filter.expr.data ++ havingChars other) false <
          filter.args.length →
        queryBuild d toArg table fnames fields order filter other =
          .error .argumentCountMismatch)) := by
  have hsplit : countQ (joinChars other ++ filter.expr.data ++ havingChars other) false =
      countQ (joinChars other) false
        + countQ filter.expr.data (finalQuo (joinChars other) false)
        + countQ (havingChars other)
            (finalQuo filter.expr.data (finalQuo (joinChars other) false)) := by
    rw [countQ_append (joinChars other ++ filter.expr.data), countQ_append (joinChars other),
      finalQuo_append]
  refine ⟨⟨fun hk => ?_, fun hk => ?_, fun hk => ?_⟩, ⟨fun hk => ?_, fun hk => ?_, fun hk => ?_⟩,
    ⟨fun hk => ?_, fun hk => ?_, fun hk => ?_⟩, ⟨fun hk => ?_, fun hk => ?_, fun hk => ?_⟩,
    ⟨fun hk => ?_, fun hk => ?_, fun hk => ?_⟩⟩
  · rw [updateBuild, setSection_ok d toArg entity fields hconv fnames.enum]
    simp only []
    rw [whereSection_ok d toArg hconv filter _ (by first | omega | (simp only []; omega))]
    simp only []
    rw [if_neg (by omega)]
    rw [List.drop_zero, hk, List.take_length]
    exact ⟨_, _, rfl⟩
  · rw [updateBuild, setSection_ok d toArg entity fields hconv fnames.enum]
    simp only []
    rw [whereSection_overflow d toArg hconv filter _ (by first | omega | (simp only []; omega))
      (by first | omega | (simp only []; omega))]
  · rw [updateBuild, setSection_ok d toArg entity fields hconv fnames.enum]
    simp only []
    rw [whereSection_ok d toArg hconv filter _ (by first | omega | (simp only []; omega))]
    simp only []
    rw [if_pos (by omega)]
  · rw [deleteBuild]
    rw [whereSection_ok d toArg hconv filter _ (by first | omega | (simp only []; omega))]
    simp only []
    rw [if_neg (by omega)]
    rw [List.drop_zero, hk, List.take_length]
    exact ⟨_, rfl⟩
  · rw [deleteBuild]
    rw [whereSection_overflow d toArg hconv filter _ (by first | omega | (simp only []; omega))
      (by first | omega | (simp only []; omega))]
  · rw [deleteBuild]
    rw [whereSection_ok d toArg hconv filter _ (by first | omega | (simp only []; omega))]
    simp only []
    rw [if_pos (by omega)]
  · simp only [insertOneBuild]
    rw [valuesSection_ok d toArg entity fields hconv fnames.enum]
    simp only []
    rw [scanFragment_ok d toArg filter.args hconv filter.expr.data _ (by first | omega | (simp only []; omega))]
    simp only []
    rw [if_neg (by omega)]
    rw [List.drop_zero, hk, List.take_length]
    exact ⟨_, _, rfl⟩
  · simp only [insertOneBuild]
    rw [valuesSection_ok d toArg entity fields hconv fnames.enum]
    simp only []
    rw [scanFragment_overflow d toArg filter.args hconv filter.expr.data _
      (by first | omega | (simp only []; omega)) (by first | omega | (simp only []; omega))]
  · simp only [insertOneBuild]
    rw [valuesSection_ok d toArg entity fields hconv fnames.enum]
    simp only []
    rw [scanFragment_ok d toArg filter.args hconv filter.expr.data _ (by first | omega | (simp only []; omega))]
    simp only []
    rw [if_pos (by omega)]
  · simp only [countBuild]
    rw [pipeline_ok d toArg filter other true hconv _ _ (by omega)]
    simp only []
    rw [if_neg (by omega)]
    have htot : countQ (joinChars other) false
        + countQ filter.expr.data (finalQuo (joinChars other) false)
        + countQ (havingChars other)
            (finalQuo filter.expr.data (finalQuo (joinChars other) false)) =
        filter.args.length := by omega
    rw [htot, List.take_length]
    exact ⟨_, rfl⟩
  · simp only [countBuild]
    rw [pipeline_overflow d toArg filter other true hconv _ _ (by omega)]
  · simp only [countBuild]
    rw [pipeline_ok d toArg filter other true hconv _ _ (by omega)]
    simp only []
    rw [if_pos (by omega)]
  · simp only [queryBuild]
    rw [pipeline_ok d toArg filter other false hconv _ _ (by omega)]
    simp only []
    rw [if_neg (by omega)]
    have htot : countQ (joinChars other) false
        + countQ filter.expr.data (finalQuo (joinChars other) false)
        + countQ (havingChars other)
            (finalQuo filter.expr.data (finalQuo (joinChars other) false)) =
        filter.args.length := by omega
    rw [htot, List.take_length]
    exact ⟨_, rfl⟩
  · simp only [queryBuild]
    rw [pipeline_overflow d toArg filter other false hconv _ _ (by omega)]
  · simp only [queryBuild]
    rw [pipeline_ok d toArg filter other false hconv _ _ (by omega)]
    simp only []
    rw [if_pos (by omega)]

theorem claim1_witness :
    (ConvTotal toArgOk ∧
      countQ ("id = ?").data false = ([5] : List Nat).length ∧
      ([5] : List Nat).length < countQ ("id = ? and x = ?").data false ∧
      countQ (joinChars none ++ ("id = ?" : String).data ++ havingChars none) false <
        ([5, 6] : List Nat).length) ∧
    (∃ sql setP, updateBuild .postgres toArgOk "t" ["id"] (fun _ => some "") (fun _ => 9)
      (⟨"id = ?", [5]⟩ : Filter Nat) = .ok (sql, setP ++ [Param.arg 5])) ∧
    deleteBuild .postgres toArgOk "t" (⟨"id = ? and x = ?", [5]⟩ : Filter Nat) =
      .error .placeholderOverflow ∧
    countBuild .postgres toArgOk "t" (⟨"id = ?", [5, 6]⟩ : Filter Nat) none =
      .error .argumentCountMismatch := by
  refine ⟨⟨toArgOk_total, by decide, by decide, by decide⟩, ?_, ?_, ?_⟩
  · obtain ⟨sql, setP, h⟩ := (claim1_placeholder_parity .postgres toArgOk "t" ["id"]
      (fun _ => some "") (fun _ => 9) ⟨"id = ?", [5]⟩ none "" toArgOk_total).1.1 (by decide)
    exact ⟨sql, setP, by simpa using h⟩
  · exact (claim1_placeholder_parity .postgres toArgOk "t" ["id"] (fun _ => some "")
      (fun _ => 9) ⟨"id = ? and x = ?", [5]⟩ none "" toArgOk_total).2.1.2.1 (by decide)
  · exact (claim1_placeholder_parity .postgres toArgOk "t" ["id"] (fun _ => some "")
      (fun _ => 9) ⟨"id = ?", [5, 6]⟩ none "" toArgOk_total).2.2.2.1.2.2 (by decide)

/-- Claim C3: bound-parameter positions are global and assigned in one fixed
scan order.  On the tabular dialect — whose placeholder for the `n`-th bound
parameter is literally `@P` followed by `n` — the update statement binds the
entity's field values first (`setRender` numbers them `1..m` via
`d.placeholder (n+1)`) and then the where placeholders (`whereRender`
continues from `m`); insert_one binds the values section first and the where
placeholders after it; and the query statement numbers the join_on fragment
from 1, the where fragment from the join count, and the having fragment from
the join+where count, binding the parameter vector in exactly that order. -/
theorem claim3_global_positions {Arg : Type} (toArg : Arg → Except String String)
    (table : String) (fnames : List String) (fields : String → Option String)
    (entity : Nat → Arg) (filter : Filter Arg) (other : Option Other) (order : String)
    (hconv : ConvTotal toArg)
    (hkU : countQ filter.expr.data false = filter.args.length)
    (hkQ : countQ (joinChars other ++ filter.expr.data ++ havingChars other) false =
      filter.args.length) :
    (∀ n : Nat, Dialect.placeholder .mssql n = "@P" ++ Nat.repr n) ∧
    updateBuild .mssql toArg table fnames fields entity filter =
      .ok (("update " ++ table ++ " set ").data
          ++ setRender .mssql (setPairs fields fnames.enum) 0 false
          ++ whereRender .mssql filter false (setPairs fields fnames.enum).length,
        (setPairs fields fnames.enum).map (fun p => Param.arg (entity p.1))
          ++ filter.args.map Param.arg) ∧
    insertOneBuild .mssql toArg table fnames fields entity (some filter) =
      .ok (((("insert into " ++ table).data ++ ['(']) ++ commaJoin (colsList fields fnames) false
            ++ [')'] ++ (" select ").data
            ++ valuesRender .mssql (valuesPairs fields fnames.enum) 0 false)
          ++ (" where ").data
          ++ renderFrag .mssql filter.expr.data false (valuesPairs fields fnames.enum).length,
        (valuesPairs fields fnames.enum).map (fun ix => Param.arg (entity ix))
          ++ filter.args.map Param.arg) ∧
    (∃ base, queryBuild .mssql toArg table fnames fields order filter other =
      .ok ((if order.length > 0 then base ++ (" order by " ++ order).data else base),
        filter.args.map Param.arg) ∧
      base = selectSection fields fnames ("select ").data false ++ (" from " ++ table).data
        ++ joinRender .mssql other false 0
        ++ whereRender .mssql filter (finalQuo (joinChars other) false)
            (countQ (joinChars other) false)
        ++ ghRender .mssql other false
            (finalQuo filter.expr.data (finalQuo (joinChars other) false))
            (countQ (joinChars other) false +
              countQ filter.expr.data (finalQuo (joinChars other) false))) := by
  have hsplit : countQ (joinChars other ++ filter.expr.data ++ havingChars other) false =
      countQ (joinChars other) false
        + countQ filter.expr.data (finalQuo (joinChars other) false)
        + countQ (havingChars other)
            (finalQuo filter.expr.data (finalQuo (joinChars other) false)) := by
    rw [countQ_append (joinChars other ++ filter.expr.data), countQ_append (joinChars other),
      finalQuo_append]
  refine ⟨fun n => rfl, ?_, ?_, ?_⟩
  · rw [updateBuild, setSection_ok .mssql toArg entity fields hconv fnames.enum]
    simp only []
    rw [whereSection_ok .mssql toArg hconv filter _ (by first | omega | (simp only []; omega))]
    simp only []
    rw [if_neg (by omega)]
    rw [List.drop_zero, hkU, List.take_length]
    simp only [List.nil_append, List.length_nil, List.length_map]
  · simp only [insertOneBuild, Option.isSome_some, if_true]
    rw [columnsSection_eq]
    rw [valuesSection_ok .mssql toArg entity fields hconv fnames.enum]
    simp only []
    rw [scanFragment_ok .mssql toArg filter.args hconv filter.expr.data _
      (by first | omega | (simp only []; omega))]
    simp only []
    rw [if_neg (by omega)]
    rw [List.drop_zero, hkU, List.take_length]
    simp only [List.nil_append, List.length_nil, List.length_map]
  · refine ⟨_, ?_, rfl⟩
    simp only [queryBuild]
    rw [pipeline_ok .mssql toArg filter other false hconv _ _ (by omega)]
    simp only []
    rw [if_neg (by omega)]
    have htot : countQ (joinChars other) false
        + countQ filter.expr.data (finalQuo (joinChars other) false)
        + countQ (havingChars other)
            (finalQuo filter.expr.data (finalQuo (joinChars other) false)) =
        filter.args.length := by omega
    rw [htot, List.take_length]

theorem claim3_witness :
    (ConvTotal toArgOk ∧
      countQ ("id > ?").data false = ([5] : List Nat).length ∧
      countQ (joinChars none ++ ("id > ?" : String).data ++ havingChars none) false =
        ([5] : List Nat).length) ∧
    Dialect.placeholder .mssql 3 = "@P" ++ Nat.repr 3 ∧
    updateBuild .mssql toArgOk "t" ["id", "name"] (fun fd => if fd = "id" then some "-" else some "")
        (fun _ => 7) (⟨"id > ?", [5]⟩ : Filter Nat) =
      .ok (("update t set ").data
          ++ setRender .mssql
            (setPairs (fun fd => if fd = "id" then some "-" else some "") (["id", "name"]).enum)
            0 false
          ++ whereRender .mssql (⟨"id > ?", [5]⟩ : Filter Nat) false
            (setPairs (fun fd => if fd = "id" then some "-" else some "")
              (["id", "name"]).enum).length,
        (setPairs (fun fd => if fd = "id" then some "-" else some "") (["id", "name"]).enum).map
            (fun p => Param.arg ((fun _ => 7) p.1))
          ++ ([5] : List Nat).map Param.arg) := by
  obtain ⟨hph, hupd, hins, hq⟩ := claim3_global_positions toArgOk "t" ["id", "name"]
    (fun fd => if fd = "id" then some "-" else some "") (fun _ => 7)
    (⟨"id > ?", [5]⟩ : Filter Nat) none "" toArgOk_total (by decide) (by decide)
  exact ⟨⟨toArgOk_total, by decide, by decide⟩, hph 3, by simpa using hupd⟩

/-- Positional filter over a row list: keep the rows whose 1-based row
number (`row_number()` assigns `n, n+1, ...` in order) satisfies `p`; models
the database evaluating `where _num between ...` over the numbered rows. -/
def numFilter {α : Type} (p : Nat → Bool) : Nat → List α → List α
  | _, [] => []
  | n, r :: rest => if p n then r :: numFilter p (n + 1) rest else numFilter p (n + 1) rest

/-- The predicate of the generated pagination clause
`_num between (1+offset) and (offset+limit)`, over the `i64` offset and
limit values. -/
def betweenPred (o l : Int) (m : Nat) : Bool :=
  decide (1 + o ≤ (m : Int)) && decide ((m : Int) ≤ o + l)

theorem numFilter_congr {α : Type} (p q : Nat → Bool) (h : ∀ m, p m = q m) :
    ∀ (rows : List α) (n : Nat), numFilter p n rows = numFilter q n rows := by
  intro rows
  induction rows with
  | nil => intro n; simp [numFilter]
  | cons r rest ih =>
    intro n
    rw [numFilter, numFilter, h n]
    by_cases hq : q n = true <;> simp [hq, ih]

theorem numFilter_window {α : Type} (lo len2 : Nat) : ∀ (rows : List α) (n : Nat),
    numFilter (fun m => decide (lo ≤ m) && decide (m < lo + len2)) n rows =
      if n < lo then (rows.drop (lo - n)).take len2 else rows.take (lo + len2 - n) := by
  intro rows
  induction rows with
  | nil => intro n; simp [numFilter]
  | cons r rest ih =>
    intro n
    rw [numFilter]
    by_cases h1 : lo ≤ n
    · by_cases h3 : n < lo + len2
      · rw [if_pos (by simp only [Bool.and_eq_true, decide_eq_true_eq]; exact ⟨h1, h3⟩)]
        rw [ih (n + 1)]
        rw [if_neg (by omega), if_neg (by omega)]
        have h4 : lo + len2 - n = (lo + len2 - (n + 1)) + 1 := by omega
        rw [h4, List.take_succ_cons]
      · rw [if_neg (by simp only [Bool.and_eq_true, decide_eq_true_eq]; intro hc; omega)]
        rw [ih (n + 1)]
        rw [if_neg (by omega), if_neg (by omega)]
        have h4 : lo + len2 - n = 0 := by omega
        have h5 : lo + len2 - (n + 1) = 0 := by omega
        rw [h4, h5]
        simp
    · rw [if_neg (by simp only [Bool.and_eq_true, decide_eq_true_eq]; intro hc; omega)]
      rw [ih (n + 1)]
      by_cases h2 : n + 1 < lo
      · rw [if_pos h2, if_pos (show n < lo by omega)]
        have h4 : lo - n = (lo - (n + 1)) + 1 := by omega
        rw [h4, List.drop_succ_cons]
      · rw [if_neg h2, if_pos (show n < lo by omega)]
        have h4 : lo - n = 1 := by omega
        have h5 : lo + len2 - (n + 1) = len2 := by omega
        rw [h4, h5]
        simp

/-- With a natural offset `o` and limit `l`, filtering the 1-based numbered
rows by `1+o ≤ _num ≤ o+l` returns exactly the rows the plain-dialect
`LIMIT l OFFSET o` returns: skip the first `o`, keep the next `l`. -/
theorem numFilter_between {α : Type} (o l : Nat) (rows : List α) :
    numFilter (fun m => betweenPred (o : Int) (l : Int) m) 1 rows =
      (rows.drop o).take l := by
  have hpt : ∀ m : Nat, betweenPred (o : Int) (l : Int) m =
      (decide (o + 1 ≤ m) && decide (m < o + 1 + l)) := by
    intro m
    unfold betweenPred
    have h1 : (1 + (o : Int) ≤ (m : Int)) ↔ (o + 1 ≤ m) := by omega
    have h2 : ((m : Int) ≤ (o : Int) + (l : Int)) ↔ (m < o + 1 + l) := by omega
    rw [decide_eq_decide.mpr h1, decide_eq_decide.mpr h2]
  rw [numFilter_congr _ _ hpt rows 1]
  rw [numFilter_window (o + 1) l rows 1]
  by_cases ho : 1 < o + 1
  · rw [if_pos ho]
    have h4 : o + 1 - 1 = o := by omega
    rw [h4]
  · rw [if_neg ho]
    have ho0 : o = 0 := by omega
    subst ho0
    simp

/-- Claim C8: the tabular-dialect paginated query wraps the select in a
`row_number() over (order by ...) as _num` subquery — ordering by the
caller's order string, or the constant `(select 1)` when none was given —
and filters `_num` by `between (1+@Pa) and (@Pa+@Pb)` where `@Pa` binds the
offset and `@Pb` the limit (the last two bound parameters); and selecting
rows whose 1-based number `n` satisfies `1+offset ≤ n ≤ offset+limit` yields
exactly the `LIMIT l OFFSET o` result set: drop `offset` rows, take
`limit`. -/
theorem claim8_pagination {Arg RowT : Type} (toArg : Arg → Except String String)
    (table : String) (fnames : List String) (fields : String → Option String)
    (order : String) (lim off : Int) (filter : Filter Arg) (other : Option Other)
    (hconv : ConvTotal toArg)
    (hk : countQ (joinChars other ++ filter.expr.data ++ havingChars other) false =
      filter.args.length) :
    (∃ base, mssqlLimitQueryBuild toArg table fnames fields order lim off filter other =
      .ok (base ++ (") sub where _num between (1+").data
          ++ ("@P" ++ Nat.repr (filter.args.length + 1)).data ++ (") and (").data
          ++ ("@P" ++ Nat.repr (filter.args.length + 1)).data ++ ['+']
          ++ ("@P" ++ Nat.repr (filter.args.length + 2)).data ++ [')'],
        filter.args.map Param.arg ++ [Param.int off, Param.int lim]) ∧
      base = limitSelectSection fields fnames ("select * from (select ").data
        ++ ("row_number() over (order by ").data
        ++ (if order.length > 0 then order.data else ("(select 1)").data)
        ++ (") as _num").data ++ (" from " ++ table).data
        ++ joinRender .mssql other false 0
        ++ whereRender .mssql filter (finalQuo (joinChars other) false)
            (countQ (joinChars other) false)
        ++ ghRender .mssql other false
            (finalQuo filter.expr.data (finalQuo (joinChars other) false))
            (countQ (joinChars other) false +
              countQ filter.expr.data (finalQuo (joinChars other) false))) ∧
    (∀ (o l : Nat) (rows : List RowT),
      numFilter (fun m => betweenPred (o : Int) (l : Int) m) 1 rows =
        (rows.drop o).take l) := by
  have hsplit : countQ (joinChars other ++ filter.expr.data ++ havingChars other) false =
      countQ (joinChars other) false
        + countQ filter.expr.data (finalQuo (joinChars other) false)
        + countQ (havingChars other)
            (finalQuo filter.expr.data (finalQuo (joinChars other) false)) := by
    rw [countQ_append (joinChars other ++ filter.expr.data), countQ_append (joinChars other),
      finalQuo_append]
  refine ⟨⟨_, ?_, rfl⟩, fun o l rows => numFilter_between o l rows⟩
  simp only [mssqlLimitQueryBuild]
  rw [pipeline_ok .mssql toArg filter other false hconv _ _ (by omega)]
  simp only []
  rw [if_neg (by omega)]
  have htot : countQ (joinChars other) false
      + countQ filter.expr.data (finalQuo (joinChars other) false)
      + countQ (havingChars other)
          (finalQuo filter.expr.data (finalQuo (joinChars other) false)) =
      filter.args.length := by omega
  rw [htot, List.take_length]
  simp only [List.length_append, List.length_map, List.length_cons, List.length_nil,
    List.append_assoc, List.singleton_append, List.cons_append, List.nil_append]

theorem claim8_witness :
    (ConvTotal toArgOk ∧
      countQ (joinChars none ++ ("age > ?" : String).data ++ havingChars none) false =
        ([20] : List Nat).length) ∧
    (∃ base, mssqlLimitQueryBuild toArgOk "student" ["id"] (fun _ => some "") "id" 3 1
        (⟨"age > ?", [20]⟩ : Filter Nat) none =
      .ok (base ++ (") sub where _num between (1+").data
          ++ ("@P" ++ Nat.repr 2).data ++ (") and (").data
          ++ ("@P" ++ Nat.repr 2).data ++ ['+']
          ++ ("@P" ++ Nat.repr 3).data ++ [')'],
        [Param.arg 20, Param.int 1, Param.int 3])) ∧
    numFilter (fun m => betweenPred (1 : Int) (3 : Int) m) 1 [10, 20, 30, 40, 50] =
      (([10, 20, 30, 40, 50] : List Nat).drop 1).take 3 := by
  obtain ⟨⟨base, hb, _⟩, hsem⟩ := @claim8_pagination Nat Nat toArgOk "student" ["id"]
    (fun _ => some "") "id" 3 1 (⟨"age > ?", [20]⟩ : Filter Nat) none toArgOk_total (by decide)
  exact ⟨⟨toArgOk_total, by decide⟩, ⟨base, by simpa using hb⟩, hsem 1 3 [10, 20, 30, 40, 50]⟩

/-! ### Claim C6: table-name derivation -/

/-- The claim's description of the derivation: emit each character
lowercased, inserting one underscore immediately before each uppercase
letter except when the output is still empty (`started = false`). -/
def tableSpec : List Char → Bool → List Char
  | [], _ => []
  | c :: rest, started =>
    if c.isUpper then (if started then ['_'] else []) ++ [c.toLower] ++ tableSpec rest true
    else [c.toLower] ++ tableSpec rest true

theorem tableNameLoop_spec (chars : List Char) :
    ∀ table : List Char, tableNameLoop chars table = table ++ tableSpec chars (table.length > 0) := by
  induction chars with
  | nil => intro table; simp [tableNameLoop, tableSpec]
  | cons c rest ih =>
    intro table
    unfold tableNameLoop tableSpec
    by_cases hu : c.isUpper
    · simp only [hu, if_true, ih, decide_eq_true_eq]
      cases table with
      | nil => simp
      | cons t ts => simp
    · simp only [hu, if_false, Bool.false_eq_true, ih, decide_eq_true_eq]
      rw [charToLowerOfNotUpper (by simpa using hu)]
      cases table with
      | nil => simp
      | cons t ts => simp

/-- Claim C6: `Model::new` derives the table name by emitting each character
lowercased and inserting one underscore immediately before each uppercase
letter except when the output is still empty; in particular `ClazzName`
yields `clazz_name`, `A` yields `a`, and `ABStudent` yields
`a_b_student`. -/
theorem claim6_table_name :
    (∀ name : String, tableName name = String.mk (tableSpec name.data false)) ∧
    tableName "ClazzName" = "clazz_name" ∧
    tableName "A" = "a" ∧
    tableName "ABStudent" = "a_b_student" := by
  refine ⟨fun name => ?_, by decide, by decide, by decide⟩
  unfold tableName
  rw [tableNameLoop_spec]
  simp

/-! ### Claim C7: Filter composition -/

/-- Claim C7: `and(fragment, args)` (resp. `or`) appends a non-empty
fragment to the accumulated expression with the `" and "` (resp. `" or "`)
separator prepended exactly when the accumulated expression was already
non-empty, leaves the expression unchanged when the fragment is empty, and
in every case appends the supplied `args` to the argument list (appending
the empty list being the identity). -/
theorem claim7_filter_compose {Arg : Type} (f : Filter Arg) (frag : String) (args : List Arg) :
    f.and (frag, args) =
      { expr :=
          if frag = "" then f.expr
          else if f.expr = "" then frag
          else f.expr ++ " and " ++ frag,
        args := f.args ++ args } ∧
    f.or (frag, args) =
      { expr :=
          if frag = "" then f.expr
          else if f.expr = "" then frag
          else f.expr ++ " or " ++ frag,
        args := f.args ++ args } := by
  constructor
  · unfold Filter.and Filter.if_and
    simp only [if_true]
    by_cases hf : frag = ""
    · subst hf
      simp only [if_true]
      by_cases ha : args = []
      · subst ha; simp
      · have : args.length > 0 := List.length_pos.mpr ha
        simp [this]
    · have hflen : frag.length > 0 := strLengthPos.mpr hf
      by_cases he : f.expr = ""
      · have : ¬ f.expr.length > 0 := by simp [he]
        by_cases ha : args = []
        · subst ha; simp [hflen, this, hf, he]
        · have halen : args.length > 0 := List.length_pos.mpr ha
          simp [hflen, this, hf, he, halen]
      · have helen : f.expr.length > 0 := strLengthPos.mpr he
        by_cases ha : args = []
        · subst ha; simp [hflen, helen, hf, he]
        · have halen : args.length > 0 := List.length_pos.mpr ha
          simp [hflen, helen, hf, he, halen]
  · unfold Filter.or Filter.if_or
    simp only [if_true]
    by_cases hf : frag = ""
    · subst hf
      simp only [if_true]
      by_cases ha : args = []
      · subst ha; simp
      · have : args.length > 0 := List.length_pos.mpr ha
        simp [this]
    · have hflen : frag.length > 0 := strLengthPos.mpr hf
      by_cases he : f.expr = ""
      · have : ¬ f.expr.length > 0 := by simp [he]
        by_cases ha : args = []
        · subst ha; simp [hflen, this, hf, he]
        · have halen : args.length > 0 := List.length_pos.mpr ha
          simp [hflen, this, hf, he, halen]
      · have helen : f.expr.length > 0 := strLengthPos.mpr he
        by_cases ha : args = []
        · subst ha; simp [hflen, helen, hf, he]
        · have halen : args.length > 0 := List.length_pos.mpr ha
          simp [hflen, helen, hf, he, halen]

end Crudx
